import Mathlib

/-! # ETH2 deposit plugin

A shallow embedding of `src_plugins/eth2/eth2_plugin.c`: the incremental validator of
the call data of the ETH2 deposit contract, and the properties its specification
states about it.

Conventions of the embedding.

* A byte or a `char` is a `Nat`; a buffer is a `List Nat`. A C string is the
  run of bytes up to the first `0`.
* A pointer argument is the list of bytes found at the pointer. For
  `msg->parameter` this is the 32-byte chunk followed by the bytes that the host
  keeps behind it in memory. For the key buffer read by `strcpy` in the Query-UI
  case it is the 48 bytes of the buffer followed by the bytes the host keeps behind
  the context, the field `behindContext` of the message.
* `uint8_t` and `uint32_t` values are `Nat`; a reduction modulo the width is
  written where the C code narrows a value.
* A message structure holds the context that `msg->pluginContext` points to, so
  a call maps the message before to the message after.
* A local buffer that C leaves uninitialised starts zero-filled: every byte the
  plugin reads from such a buffer has been written before.
* Functions of the host and of the SDK that are not part of the plugin are the
  fields of `Externals`; theorems quantify over them.
-/

namespace Eth2Plugin

/-! ## Constants of the source -/

def WITHDRAWAL_KEY_PATH_1 : Nat := 12381
def WITHDRAWAL_KEY_PATH_2 : Nat := 3600
def WITHDRAWAL_KEY_PATH_4 : Nat := 0

def ETH2_DEPOSIT_PUBKEY_OFFSET : Nat := 0x80
def ETH2_WITHDRAWAL_CREDENTIALS_OFFSET : Nat := 0xE0
def ETH2_SIGNATURE_OFFSET : Nat := 0x120
def ETH2_DEPOSIT_PUBKEY_LENGTH : Nat := 0x30
def ETH2_WITHDRAWAL_CREDENTIALS_LENGTH : Nat := 0x20
def ETH2_SIGNATURE_LENGTH : Nat := 0x60

/-- The bytes of a C string literal: the character codes and the terminating NUL. -/
def cstr (s : String) : List Nat := s.toList.map Char.toNat ++ [0]

def DEPOSIT_CONTRACT_ADDRESS : List Nat := cstr "0x00000000219ab540356cbb839cbe05303d7705fa"

/-- The C `sizeof` of the literal, terminator included. -/
def DEPOSIT_CONTRACT_LENGTH : Nat := DEPOSIT_CONTRACT_ADDRESS.length

/-- Highest index for withdrawal derivation path (2 ^ 19). -/
def INDEX_MAX : Nat := 524288

/-! ## Types -/

/-- Modelled from the spec: the result codes of the plugin interface header
(`eth_plugin_interface.h`, not under `src/`), of which the plugin writes OK, ERROR and
FALLBACK. -/
inductive eth_plugin_result_t where
  | ETH_PLUGIN_RESULT_ERROR
  | ETH_PLUGIN_RESULT_UNAVAILABLE
  | ETH_PLUGIN_RESULT_UNSUCCESSFUL
  | ETH_PLUGIN_RESULT_SUCCESSFUL
  | ETH_PLUGIN_RESULT_OK
  | ETH_PLUGIN_RESULT_OK_ALIAS
  | ETH_PLUGIN_RESULT_FALLBACK
  deriving DecidableEq, Repr

/-- Modelled from the spec: the UI types of the plugin interface header
(`eth_plugin_interface.h`, not under `src/`). -/
inductive eth_ui_type_t where
  | ETH_UI_TYPE_AMOUNT_ADDRESS
  | ETH_UI_TYPE_GENERIC
  deriving DecidableEq, Repr

open eth_plugin_result_t eth_ui_type_t

/-- The validation context: `uint8_t valid` and `char deposit_address[48]`. -/
structure eth2_deposit_parameters_t where
  valid : Nat
  deposit_address : List Nat
  deriving DecidableEq, Repr

/-- The fields of the Init message the plugin uses; `destination` is
`msg->pluginSharedRO->txContent->destination`. -/
structure ethPluginInitContract_t where
  destination : List Nat
  pluginContext : eth2_deposit_parameters_t
  result : eth_plugin_result_t
  deriving DecidableEq, Repr

/-- The fields of the Provide-parameter message the plugin uses; `parameter` is the
memory at `msg->parameter`. -/
structure ethPluginProvideParameter_t where
  parameter : List Nat
  parameterOffset : Nat
  pluginContext : eth2_deposit_parameters_t
  result : eth_plugin_result_t
  deriving DecidableEq, Repr

/-- The fields of the Finalize message the plugin uses. -/
structure ethPluginFinalize_t where
  pluginContext : eth2_deposit_parameters_t
  numScreens : Nat
  uiType : eth_ui_type_t
  result : eth_plugin_result_t
  deriving DecidableEq, Repr

/-- The fields of the Query-contract-ID message the plugin uses. -/
structure ethQueryContractID_t where
  name : List Nat
  version : List Nat
  result : eth_plugin_result_t
  deriving DecidableEq, Repr

/-- The fields of the Query-contract-UI message the plugin uses. `behindContext` is the
memory the host keeps behind the context that `msg->pluginContext` points to: the key
buffer is the last member of the context, so a read past its 48 bytes finds these
bytes. -/
structure ethQueryContractUI_t where
  screenIndex : Nat
  title : List Nat
  msg : List Nat
  pluginContext : eth2_deposit_parameters_t
  behindContext : List Nat
  result : eth_plugin_result_t
  deriving DecidableEq, Repr

/-- The functions the plugin calls and does not define.

* `hexUpper address k`: whether `getEthAddressStringFromBinary` writes the letter at
  digit position `k` of the text of `address` in upper case;
* `getEth2PublicKey path`: the 48 bytes written to `out` for a derivation path;
* `cx_hash_sha256 data`: the 32-byte digest written to `out`;
* `amountToString value decimals ticker out`: the output buffer after the call. -/
structure Externals where
  hexUpper : List Nat → Nat → Bool
  getEth2PublicKey : List Nat → List Nat
  cx_hash_sha256 : List Nat → List Nat
  amountToString : List Nat → Nat → List Nat → List Nat → List Nat

/-- The global variables the plugin reads: `eth2WithdrawalIndex`,
`chainConfig->coinName` and `tmpContent.txContent.value`. -/
structure Globals where
  eth2WithdrawalIndex : Nat
  coinName : List Nat
  txValue : List Nat

/-! ## Memory and C library -/

/-- Store the bytes `data` into `buf` from offset `off` on. -/
def writeAt (buf : List Nat) (off : Nat) (data : List Nat) : List Nat :=
  buf.take off ++ data ++ buf.drop (off + data.length)

/-- The C `memcpy (dst + off, src, n)`: the destination buffer after the copy. -/
def memcpy (dst : List Nat) (off : Nat) (src : List Nat) (n : Nat) : List Nat :=
  writeAt dst off (src.take n)

/-- The C `memcmp (a, b, n)`, up to the sign of a nonzero result. -/
def memcmp (a b : List Nat) (n : Nat) : Nat :=
  if a.take n = b.take n then 0 else 1

/-- The C `strlen`. -/
def strlen (s : List Nat) : Nat := (s.takeWhile (fun c => c != 0)).length

/-- The C `strcpy (dst, src)`: the destination buffer after the copy. `src` is the
memory at the source pointer, the source array followed by the bytes behind it: the copy
runs to the first NUL of that memory, past the end of the array when the array holds no
NUL. -/
def strcpy (dst src : List Nat) : List Nat :=
  writeAt dst 0 (src.takeWhile (fun c => c != 0) ++ [0])

/-- Modelled from the spec: the SDK macro `U4BE` (not under `src/`), the big-endian
4-byte integer extraction from a byte buffer, as a `uint32_t`. -/
def U4BE (buf : List Nat) (off : Nat) : Nat :=
  (buf.getD off 0 * 2 ^ 24 + buf.getD (off + 1) 0 * 2 ^ 16 + buf.getD (off + 2) 0 * 2 ^ 8
    + buf.getD (off + 3) 0) % 2 ^ 32

/-- One hexadecimal digit as a character, letters in the given case. -/
def hexDigit (upper : Bool) (n : Nat) : Nat :=
  if n < 10 then 48 + n else if upper then 65 + (n - 10) else 97 + (n - 10)

/-- The hexadecimal text of a run of bytes, two digits a byte; `upper k` gives the case
of the digit at position `k`. -/
def hexString (upper : Nat → Bool) : Nat → List Nat → List Nat
  | _, [] => []
  | k, b :: bs =>
    hexDigit (upper k) (b / 16 % 16) :: hexDigit (upper (k + 1)) (b % 16)
      :: hexString upper (k + 2) bs

/-- Modelled from the spec: `getEthAddressStringFromBinary` (`ethUtils.c`, not under
`src/`), the binary-to-text address formatting: it writes the 40 hexadecimal digits of
the 20 address bytes, in a letter case of its own choosing, and a terminator, to `out`
from offset `off` on. -/
def getEthAddressStringFromBinary (upper : Nat → Bool) (address : List Nat)
    (out : List Nat) (off : Nat) : List Nat :=
  writeAt out off (hexString upper 0 (address.take 20) ++ [0])

/-! ## The functions of the plugin -/

/-- The loop of `to_lowercase`, from the current position on: `size` counts the
iterations left before `i < size` fails. The counter `i` is an `unsigned char` as
`size` is, so it does not wrap. -/
def to_lowercase : List Nat → Nat → List Nat
  | [], _ => []
  | c :: str, 0 => c :: str
  | c :: str, size + 1 =>
    if c = 0 then c :: str
    else (if 65 ≤ c ∧ c ≤ 90 then c + (97 - 65) else c) :: to_lowercase str size

/-- The loop of `to_lowercase` with its counter written out: `i` is the
`unsigned char` counter, `str[i]` a read of the buffer (a read past the modelled bytes
finds the terminator), and `fuel` bounds the number of tests of the loop condition;
`none` when the fuel runs out before the loop exits. -/
def to_lowercase_loop (size : Nat) : Nat → Nat → List Nat → Option (List Nat)
  | 0, _, _ => none
  | fuel + 1, i, str =>
    if i < size ∧ str.getD i 0 ≠ 0 then
      to_lowercase_loop size fuel ((i + 1) % 256)
        (if 65 ≤ str.getD i 0 ∧ str.getD i 0 ≤ 90 then str.set i (str.getD i 0 + (97 - 65))
         else str)
    else some str

/-- The source function `getEthDisplayableAddress (out, in)`: the returned length and
the buffer `out` after the call. -/
def getEthDisplayableAddress (E : Externals) (out : List Nat) (inp : List Nat) :
    Nat × List Nat :=
  let out := out.set 0 48
  let out := out.set 1 120
  let out := getEthAddressStringFromBinary (E.hexUpper inp) inp out 2
  let destinationLen := (strlen out + 1) % 256
  let out := to_lowercase out destinationLen
  (destinationLen, out)

/-- The source function `check_deposit_contract`. The local buffer is written in full
before it is read. -/
def check_deposit_contract (E : Externals) (msg : ethPluginInitContract_t) : Nat :=
  let destinationAddress := List.replicate DEPOSIT_CONTRACT_LENGTH 0
  let r := getEthDisplayableAddress E destinationAddress msg.destination
  let destinationLen := r.1 % 256
  if destinationLen ≠ DEPOSIT_CONTRACT_LENGTH then 0
  else if memcmp r.2 DEPOSIT_CONTRACT_ADDRESS DEPOSIT_CONTRACT_LENGTH ≠ 0 then 0
  else 1

/-- Case `ETH_PLUGIN_INIT_CONTRACT` of `eth2_plugin_call`. -/
def init_contract (E : Externals) (msg : ethPluginInitContract_t) :
    ethPluginInitContract_t :=
  if check_deposit_contract E msg = 0 then
    { msg with pluginContext := { msg.pluginContext with valid := 0 },
               result := ETH_PLUGIN_RESULT_ERROR }
  else
    { msg with pluginContext := { msg.pluginContext with valid := 1 },
               result := ETH_PLUGIN_RESULT_OK }

/-- The inner switch of the head fields: the value of `check` for a parameter
offset. -/
def head_check (parameterOffset : Nat) : Nat :=
  if parameterOffset = 4 + 32 * 0 then ETH2_DEPOSIT_PUBKEY_OFFSET
  else if parameterOffset = 4 + 32 * 1 then ETH2_WITHDRAWAL_CREDENTIALS_OFFSET
  else if parameterOffset = 4 + 32 * 2 then ETH2_SIGNATURE_OFFSET
  else if parameterOffset = 4 + 32 * 4 then ETH2_DEPOSIT_PUBKEY_LENGTH
  else if parameterOffset = 4 + 32 * 7 then ETH2_WITHDRAWAL_CREDENTIALS_LENGTH
  else if parameterOffset = 4 + 32 * 9 then ETH2_SIGNATURE_LENGTH
  else 0

/-- The buffer `tmp` of the withdrawal-credentials case when it is compared: the
derived public key, hashed in place, first byte cleared. -/
def withdrawal_tmp (E : Externals) (eth2WithdrawalIndex : Nat) : List Nat :=
  let tmp := List.replicate 48 0
  let withdrawalKeyPath :=
    [WITHDRAWAL_KEY_PATH_1, WITHDRAWAL_KEY_PATH_2, eth2WithdrawalIndex, WITHDRAWAL_KEY_PATH_4]
  let tmp := writeAt tmp 0 ((E.getEth2PublicKey withdrawalKeyPath).take 48)
  let tmp := writeAt tmp 0 ((E.cx_hash_sha256 (tmp.take 48)).take 32)
  tmp.set 0 0

/-- Case `ETH_PLUGIN_PROVIDE_PARAMETER` of `eth2_plugin_call`. -/
def provide_parameter (E : Externals) (G : Globals) (msg : ethPluginProvideParameter_t) :
    ethPluginProvideParameter_t :=
  let context := msg.pluginContext
  let off := msg.parameterOffset
  if off = 4 + 32 * 0 ∨ off = 4 + 32 * 1 ∨ off = 4 + 32 * 2 ∨ off = 4 + 32 * 4
      ∨ off = 4 + 32 * 7 ∨ off = 4 + 32 * 9 then
    let check := head_check off
    let index := U4BE msg.parameter (32 - 4)
    let context := if index ≠ check then { context with valid := 0 } else context
    { msg with pluginContext := context, result := ETH_PLUGIN_RESULT_OK }
  else if off = 4 + 32 * 5 then
    let deposit_address := memcpy context.deposit_address 0 msg.parameter 48
    { msg with pluginContext := { context with deposit_address := deposit_address },
               result := ETH_PLUGIN_RESULT_OK }
  else if off = 4 + 32 * 6 then
    let deposit_address := memcpy context.deposit_address 32 msg.parameter (48 - 32)
    let tmp := (getEthDisplayableAddress E (List.replicate 48 0) deposit_address).2
    let deposit_address := strcpy deposit_address tmp
    { msg with pluginContext := { context with deposit_address := deposit_address },
               result := ETH_PLUGIN_RESULT_OK }
  else if off = 4 + 32 * 3 ∨ off = 4 + 32 * 10 ∨ off = 4 + 32 * 11 ∨ off = 4 + 32 * 12 then
    { msg with result := ETH_PLUGIN_RESULT_OK }
  else if off = 4 + 32 * 8 then
    let msg :=
      if G.eth2WithdrawalIndex > INDEX_MAX then
        { msg with result := ETH_PLUGIN_RESULT_ERROR,
                   pluginContext := { context with valid := 0 } }
      else msg
    let tmp := withdrawal_tmp E G.eth2WithdrawalIndex
    if memcmp tmp msg.parameter 32 ≠ 0 then
      { msg with result := ETH_PLUGIN_RESULT_ERROR,
                 pluginContext := { msg.pluginContext with valid := 0 } }
    else
      { msg with result := ETH_PLUGIN_RESULT_OK }
  else msg

/-- Case `ETH_PLUGIN_FINALIZE` of `eth2_plugin_call`. -/
def finalize (msg : ethPluginFinalize_t) : ethPluginFinalize_t :=
  if msg.pluginContext.valid ≠ 0 then
    { msg with numScreens := 2, uiType := ETH_UI_TYPE_GENERIC,
               result := ETH_PLUGIN_RESULT_OK }
  else
    { msg with result := ETH_PLUGIN_RESULT_FALLBACK }

/-- Case `ETH_PLUGIN_QUERY_CONTRACT_ID` of `eth2_plugin_call`. -/
def query_contract_id (msg : ethQueryContractID_t) : ethQueryContractID_t :=
  { msg with name := strcpy msg.name (cstr "ETH2"),
             version := strcpy msg.version (cstr "Deposit"),
             result := ETH_PLUGIN_RESULT_OK }

/-- Modelled from the spec: the macro `WEI_TO_ETHER` of the host headers (not under
`src/`), the fixed display precision constant of the amount screen. -/
def WEI_TO_ETHER : Nat := 18

/-- Case `ETH_PLUGIN_QUERY_CONTRACT_UI` of `eth2_plugin_call`. -/
def query_contract_ui (E : Externals) (G : Globals) (msg : ethQueryContractUI_t) :
    ethQueryContractUI_t :=
  if msg.screenIndex = 0 then
    let decimals := WEI_TO_ETHER
    let ticker := G.coinName
    { msg with title := strcpy msg.title (cstr "Amount"),
               msg := E.amountToString G.txValue decimals ticker msg.msg,
               result := ETH_PLUGIN_RESULT_OK }
  else if msg.screenIndex = 1 then
    { msg with title := strcpy msg.title (cstr "Validator"),
               msg := strcpy msg.msg (msg.pluginContext.deposit_address ++ msg.behindContext),
               result := ETH_PLUGIN_RESULT_OK }
  else msg

/-- The arguments `(message, parameters)` of `eth2_plugin_call`: the message kind
with the structure `parameters` points to. -/
inductive PluginMessage where
  | ETH_PLUGIN_INIT_CONTRACT (msg : ethPluginInitContract_t)
  | ETH_PLUGIN_PROVIDE_PARAMETER (msg : ethPluginProvideParameter_t)
  | ETH_PLUGIN_FINALIZE (msg : ethPluginFinalize_t)
  | ETH_PLUGIN_QUERY_CONTRACT_ID (msg : ethQueryContractID_t)
  | ETH_PLUGIN_QUERY_CONTRACT_UI (msg : ethQueryContractUI_t)
  | UNHANDLED (message : Nat)
  deriving DecidableEq, Repr

/-- The source function `eth2_plugin_call`: the parameters after the call. -/
def eth2_plugin_call (E : Externals) (G : Globals) : PluginMessage → PluginMessage
  | .ETH_PLUGIN_INIT_CONTRACT msg => .ETH_PLUGIN_INIT_CONTRACT (init_contract E msg)
  | .ETH_PLUGIN_PROVIDE_PARAMETER msg =>
    .ETH_PLUGIN_PROVIDE_PARAMETER (provide_parameter E G msg)
  | .ETH_PLUGIN_FINALIZE msg => .ETH_PLUGIN_FINALIZE (finalize msg)
  | .ETH_PLUGIN_QUERY_CONTRACT_ID msg => .ETH_PLUGIN_QUERY_CONTRACT_ID (query_contract_id msg)
  | .ETH_PLUGIN_QUERY_CONTRACT_UI msg =>
    .ETH_PLUGIN_QUERY_CONTRACT_UI (query_contract_ui E G msg)
  | .UNHANDLED message => .UNHANDLED message

/-! ## Sequences of calls -/

/-- Provide-parameter called on a sequence of chunks on one context, in order: an item is
the parameter offset and the memory at `parameter`; `result` is the value the host
presets in the message. The context after the last call. -/
def provide_parameters (E : Externals) (G : Globals) (result : eth_plugin_result_t) :
    eth2_deposit_parameters_t → List (Nat × List Nat) → eth2_deposit_parameters_t
  | context, [] => context
  | context, (off, parameter) :: rest =>
    provide_parameters E G result
      (provide_parameter E G ⟨parameter, off, context, result⟩).pluginContext rest

/-- The contexts after each call of the sequence `provide_parameters` runs. -/
def provide_trace (E : Externals) (G : Globals) (result : eth_plugin_result_t) :
    eth2_deposit_parameters_t → List (Nat × List Nat) → List eth2_deposit_parameters_t
  | _, [] => []
  | context, (off, parameter) :: rest =>
    (provide_parameter E G ⟨parameter, off, context, result⟩).pluginContext
      :: provide_trace E G result
          (provide_parameter E G ⟨parameter, off, context, result⟩).pluginContext rest

/-! ## Vocabulary of the specification -/

/-- The lower-case letter of an upper-case ASCII letter, any other character itself. -/
def lowerChar (c : Nat) : Nat := if 65 ≤ c ∧ c ≤ 90 then c + (97 - 65) else c

/-- The lower-case hexadecimal text of a run of bytes. -/
def lowerHex (bs : List Nat) : List Nat := hexString (fun _ => false) 0 bs

/-- The 20 bytes of the deposit contract address
`0x00000000219ab540356cbb839cbe05303d7705fa`. -/
def DEPOSIT_CONTRACT_BYTES : List Nat :=
  [0x00, 0x00, 0x00, 0x00, 0x21, 0x9a, 0xb5, 0x40, 0x35, 0x6c, 0xbb, 0x83, 0x9c, 0xbe, 0x05,
   0x30, 0x3d, 0x77, 0x05, 0xfa]

/-- A run of `n` bytes. -/
def IsBytes (n : Nat) (l : List Nat) : Prop := l.length = n ∧ ∀ b ∈ l, b < 256

instance (n : Nat) (l : List Nat) : Decidable (IsBytes n l) := by
  unfold IsBytes; infer_instance

/-- The value of a run of bytes read as a big-endian integer. -/
def beValue (l : List Nat) : Nat := l.foldl (fun acc b => acc * 256 + b) 0

/-- The 32-byte big-endian encoding of a number. -/
def abiWord (n : Nat) : List Nat := (List.range 32).map (fun k => n / 256 ^ (31 - k) % 256)

/-- The six head offsets with the constant expected at each. -/
def headTable : List (Nat × Nat) :=
  [(4, 0x80), (36, 0xE0), (68, 0x120), (132, 0x30), (228, 0x20), (292, 0x60)]

/-- The thirteen recognized parameter offsets, `4 + 32 * k` for `k = 0..12`. -/
def recognizedOffsets : List Nat := (List.range 13).map (fun k => 4 + 32 * k)

/-- The external key derivation and hash write 48 and 32 bytes. -/
def WellSized (E : Externals) : Prop :=
  (∀ path, (E.getEth2PublicKey path).length = 48) ∧ ∀ data, (E.cx_hash_sha256 data).length = 32

/-- The withdrawal credentials in the words of the specification: the digest of the
public key derived at path `[12381, 3600, index, 0]`, its first byte replaced by `0`. -/
def derived_credentials (E : Externals) (index : Nat) : List Nat :=
  (E.cx_hash_sha256 (E.getEth2PublicKey [12381, 3600, index, 0])).set 0 0

/-! ## Sample inputs -/

/-- Stand-ins for the external functions, to evaluate the plugin on concrete inputs:
an encoder that writes every other letter in upper case, and a key derivation and a
digest that are simple arithmetic. -/
def sampleExternals : Externals where
  hexUpper := fun _ k => k % 2 == 0
  getEth2PublicKey := fun path => (List.range 48).map (fun k => (path.sum + k) % 256)
  cx_hash_sha256 := fun data => (List.range 32).map (fun k => (data.sum + 7 * k + 1) % 256)
  amountToString := fun _ _ _ out => out

/-- Sample global variables with a given withdrawal index. -/
def sampleGlobals (index : Nat) : Globals := ⟨index, cstr "ETH", [1]⟩

/-- A sample context: valid, key buffer zeroed. -/
def sampleContext : eth2_deposit_parameters_t := ⟨1, List.replicate 48 0⟩

/-- A head chunk whose upper 28 bytes are not zero: the 256-bit value is
`2 ^ 248 + 0x80`, the last four bytes read `0x80`. -/
def spoofedHeadChunk : List Nat := 1 :: List.replicate 30 0 ++ [0x80]

/-- The thirteen chunks of a well-formed deposit call, in ascending offset order: the
six head chunks are the encodings of the expected constants, the withdrawal-credentials
chunk is the one derived for `index`, the other chunks are free. `tail k` is the memory
the host keeps behind the chunk at offset `4 + 32 * k`. -/
def happyPathChunks (E : Externals) (index : Nat) (root pk1 pk2 sig1 sig2 sig3 : List Nat)
    (tail : Nat → List Nat) : List (Nat × List Nat) :=
  [(4, abiWord 0x80 ++ tail 0), (36, abiWord 0xE0 ++ tail 1), (68, abiWord 0x120 ++ tail 2),
   (100, root), (132, abiWord 0x30 ++ tail 4), (164, pk1), (196, pk2),
   (228, abiWord 0x20 ++ tail 7), (260, derived_credentials E index ++ tail 8),
   (292, abiWord 0x60 ++ tail 9), (324, sig1), (356, sig2), (388, sig3)]

/-- The C string held in a buffer: the bytes before the first NUL. -/
def cString (buf : List Nat) : List Nat := buf.takeWhile (fun c => c != 0)

/-- The characters of a text, without terminator. -/
def chars (s : String) : List Nat := s.toList.map Char.toNat

/-- The two chunks of the deposit public key as the host provides them: an item is the
parameter offset and the memory at `parameter`, the chunk followed by the memory the host
keeps behind it. -/
def pubkeyChunks (A restA B restB : List Nat) : List (Nat × List Nat) :=
  [(164, A ++ restA), (196, B ++ restB)]

/-- A sample first half of a deposit public key. -/
def sampleKeyA : List Nat := (List.range 32).map (fun k => 160 + k)

/-- A sample second half of a deposit public key, padded to a 32-byte chunk. -/
def sampleKeyB : List Nat := (List.range 16).map (fun k => 200 + k) ++ List.replicate 16 0

/-! ## Dispatch -/

theorem eth2_plugin_call_init (E : Externals) (G : Globals) (msg : ethPluginInitContract_t) :
    eth2_plugin_call E G (.ETH_PLUGIN_INIT_CONTRACT msg)
      = .ETH_PLUGIN_INIT_CONTRACT (init_contract E msg) := rfl

theorem eth2_plugin_call_provide (E : Externals) (G : Globals)
    (msg : ethPluginProvideParameter_t) :
    eth2_plugin_call E G (.ETH_PLUGIN_PROVIDE_PARAMETER msg)
      = .ETH_PLUGIN_PROVIDE_PARAMETER (provide_parameter E G msg) := rfl

theorem eth2_plugin_call_finalize (E : Externals) (G : Globals) (msg : ethPluginFinalize_t) :
    eth2_plugin_call E G (.ETH_PLUGIN_FINALIZE msg) = .ETH_PLUGIN_FINALIZE (finalize msg) := rfl

/-! ## The address formatter and the contract identity check -/

theorem hexDigit_ne_zero (u : Bool) (n : Nat) : hexDigit u n ≠ 0 := by
  unfold hexDigit; split_ifs <;> omega

theorem hexString_ne_zero (up : Nat → Bool) (k : Nat) (bs : List Nat) :
    ∀ c ∈ hexString up k bs, c ≠ 0 := by
  induction bs generalizing k with
  | nil => simp [hexString]
  | cons b bs ih =>
    intro c hc
    simp only [hexString, List.mem_cons] at hc
    rcases hc with rfl | rfl | hc
    · exact hexDigit_ne_zero _ _
    · exact hexDigit_ne_zero _ _
    · exact ih _ c hc

theorem hexString_length (up : Nat → Bool) (k : Nat) (bs : List Nat) :
    (hexString up k bs).length = 2 * bs.length := by
  induction bs generalizing k with
  | nil => simp [hexString]
  | cons b bs ih => simp only [hexString, List.length_cons, ih]; omega

theorem lowerChar_hexDigit (u : Bool) (n : Nat) (hn : n < 16) :
    lowerChar (hexDigit u n) = hexDigit false n := by
  unfold lowerChar hexDigit
  cases u <;> simp <;> split_ifs <;> omega

theorem hexString_false_shift (k j : Nat) (bs : List Nat) :
    hexString (fun _ => false) k bs = hexString (fun _ => false) j bs := by
  induction bs generalizing k j with
  | nil => simp [hexString]
  | cons b bs ih => simp only [hexString]; rw [ih (k + 2) (j + 2)]

theorem map_lowerChar_hexString (up : Nat → Bool) (k : Nat) (bs : List Nat) :
    (hexString up k bs).map lowerChar = lowerHex bs := by
  unfold lowerHex
  induction bs generalizing k with
  | nil => simp [hexString]
  | cons b bs ih =>
    simp only [hexString, List.map_cons]
    rw [lowerChar_hexDigit _ _ (Nat.mod_lt _ (by norm_num)),
      lowerChar_hexDigit _ _ (Nat.mod_lt _ (by norm_num)), ih (k + 2),
      hexString_false_shift (0 + 2) 0]

theorem hexDigit_false_inj (n m : Nat) (hn : n < 16) (hm : m < 16)
    (h : hexDigit false n = hexDigit false m) : n = m := by
  unfold hexDigit at h
  split_ifs at h <;> omega

theorem lowerHex_cons (b : Nat) (bs : List Nat) :
    lowerHex (b :: bs) = hexDigit false (b / 16 % 16) :: hexDigit false (b % 16) :: lowerHex bs := by
  unfold lowerHex
  simp only [hexString]
  rw [hexString_false_shift (0 + 2) 0]

theorem lowerHex_inj (bs cs : List Nat) (hb : ∀ b ∈ bs, b < 256) (hc : ∀ c ∈ cs, c < 256)
    (h : lowerHex bs = lowerHex cs) : bs = cs := by
  induction bs generalizing cs with
  | nil =>
    cases cs with
    | nil => rfl
    | cons c cs => simp [lowerHex, hexString] at h
  | cons b bs ih =>
    cases cs with
    | nil => simp [lowerHex, hexString] at h
    | cons c cs =>
      rw [lowerHex_cons, lowerHex_cons] at h
      simp only [List.cons.injEq] at h
      obtain ⟨h1, h2, h3⟩ := h
      have hb0 := hb b (by simp)
      have hc0 := hc c (by simp)
      have e1 := hexDigit_false_inj _ _ (Nat.mod_lt _ (by norm_num)) (Nat.mod_lt _ (by norm_num)) h1
      have e2 := hexDigit_false_inj _ _ (Nat.mod_lt _ (by norm_num)) (Nat.mod_lt _ (by norm_num)) h2
      have hbc : b = c := by omega
      rw [hbc, ih cs (fun x hx => hb x (by simp [hx])) (fun x hx => hc x (by simp [hx])) h3]

theorem takeWhile_ne_zero_append (s t : List Nat) (hs : ∀ c ∈ s, c ≠ 0) :
    (s ++ 0 :: t).takeWhile (fun c => c != 0) = s := by
  induction s with
  | nil => simp
  | cons a s ih =>
    have ha : a ≠ 0 := hs a (by simp)
    simp only [List.cons_append, List.takeWhile_cons, bne_iff_ne, ne_eq, ha, not_false_eq_true,
      ↓reduceIte, decide_True]
    rw [ih (fun c hc => hs c (by simp [hc]))]

theorem to_lowercase_append (s t : List Nat) (n : Nat) (hs : ∀ c ∈ s, c ≠ 0)
    (hn : s.length ≤ n) : to_lowercase (s ++ 0 :: t) n = s.map lowerChar ++ 0 :: t := by
  induction s generalizing n with
  | nil => cases n <;> simp [to_lowercase]
  | cons a s ih =>
    have ha : a ≠ 0 := hs a (by simp)
    cases n with
    | zero => simp at hn
    | succ n =>
      have ih2 := ih n (fun c hc => hs c (by simp [hc])) (by simpa using hn)
      simp only [List.cons_append, to_lowercase, ha, ↓reduceIte, List.map_cons, lowerChar]
      exact congrArg _ ih2

theorem getEthDisplayableAddress_eq (E : Externals) (out inp : List Nat)
    (hin : 20 ≤ inp.length) (hout : 43 ≤ out.length) :
    getEthDisplayableAddress E out inp
      = (43, 48 :: 120 :: lowerHex (inp.take 20) ++ 0 :: out.drop 43) := by
  have hlen : (hexString (E.hexUpper inp) 0 (inp.take 20)).length = 40 := by
    rw [hexString_length, List.length_take]; omega
  have hnz := hexString_ne_zero (E.hexUpper inp) 0 (inp.take 20)
  obtain ⟨a, b, out2, rfl⟩ : ∃ a b out2, out = a :: b :: out2 := by
    match out, hout with
    | a :: b :: out2, _ => exact ⟨a, b, out2, rfl⟩
  have hw : getEthAddressStringFromBinary (E.hexUpper inp) inp (((a :: b :: out2).set 0 48).set 1 120) 2
      = (48 :: 120 :: hexString (E.hexUpper inp) 0 (inp.take 20)) ++ 0 :: (a :: b :: out2).drop 43 := by
    simp [getEthAddressStringFromBinary, writeAt, hlen]
  simp only [getEthDisplayableAddress]
  rw [hw]
  have hnz2 : ∀ c ∈ 48 :: 120 :: hexString (E.hexUpper inp) 0 (inp.take 20), c ≠ 0 := by
    intro c hc
    simp only [List.mem_cons] at hc
    rcases hc with rfl | rfl | hc
    · decide
    · decide
    · exact hnz c hc
  have hs : strlen ((48 :: 120 :: hexString (E.hexUpper inp) 0 (inp.take 20)) ++ 0 :: (a :: b :: out2).drop 43) = 42 := by
    unfold strlen
    rw [takeWhile_ne_zero_append _ _ hnz2]
    simp [hlen]
  rw [hs, to_lowercase_append _ _ _ hnz2 (by simp [hlen])]
  simp [map_lowerChar_hexString, lowerChar]

theorem DEPOSIT_CONTRACT_LENGTH_eq : DEPOSIT_CONTRACT_LENGTH = 43 := by decide

theorem DEPOSIT_CONTRACT_ADDRESS_eq :
    DEPOSIT_CONTRACT_ADDRESS = 48 :: 120 :: lowerHex DEPOSIT_CONTRACT_BYTES ++ [0] := by decide

theorem check_deposit_contract_eq (E : Externals) (msg : ethPluginInitContract_t)
    (h : IsBytes 20 msg.destination) :
    check_deposit_contract E msg = if msg.destination = DEPOSIT_CONTRACT_BYTES then 1 else 0 := by
  obtain ⟨hlen, hb⟩ := h
  have hc : ∀ c ∈ DEPOSIT_CONTRACT_BYTES, c < 256 := by decide
  unfold check_deposit_contract
  simp only [DEPOSIT_CONTRACT_LENGTH_eq]
  rw [getEthDisplayableAddress_eq E _ _ (by omega) (by simp)]
  have ht : msg.destination.take 20 = msg.destination := List.take_of_length_le (by omega)
  have hl : (lowerHex msg.destination).length = 40 := by
    unfold lowerHex; rw [hexString_length]; omega
  simp only [ht, DEPOSIT_CONTRACT_ADDRESS_eq, memcmp]
  by_cases hd : msg.destination = DEPOSIT_CONTRACT_BYTES
  · simp [hd]
  · have hne : lowerHex msg.destination ≠ lowerHex DEPOSIT_CONTRACT_BYTES :=
      fun e => hd (lowerHex_inj _ _ hb hc e)
    have hl2 : (lowerHex DEPOSIT_CONTRACT_BYTES).length = 40 := by decide
    simp [hd, hl, hl2, List.take_of_length_le, hne]

/-- C1. Init accepts exactly the deposit contract: for every 20-byte destination and
every letter case the hex encoder emits, the Init message ends with valid = 1 and result
OK when the destination is the deposit contract address, and with valid = 0 and result
ERROR for every other destination; nothing else of the message changes and the value
valid held before has no influence. -/
theorem C1_init_accepts_exactly_deposit_contract (E : Externals)
    (msg : ethPluginInitContract_t) (h : IsBytes 20 msg.destination) :
    init_contract E msg =
      { msg with
        pluginContext :=
          { msg.pluginContext with
            valid := if msg.destination = DEPOSIT_CONTRACT_BYTES then 1 else 0 },
        result :=
          if msg.destination = DEPOSIT_CONTRACT_BYTES then ETH_PLUGIN_RESULT_OK
          else ETH_PLUGIN_RESULT_ERROR } := by
  unfold init_contract
  rw [check_deposit_contract_eq E msg h]
  by_cases hd : msg.destination = DEPOSIT_CONTRACT_BYTES <;> simp [hd]

/-- Witness of C1 on the deposit contract address. -/
theorem C1_init_accepts_exactly_deposit_contract_witness :
    IsBytes 20 DEPOSIT_CONTRACT_BYTES ∧
    init_contract sampleExternals ⟨DEPOSIT_CONTRACT_BYTES, ⟨0, []⟩, ETH_PLUGIN_RESULT_UNAVAILABLE⟩
      = ⟨DEPOSIT_CONTRACT_BYTES, ⟨1, []⟩, ETH_PLUGIN_RESULT_OK⟩ :=
  ⟨by decide,
    C1_init_accepts_exactly_deposit_contract sampleExternals
      ⟨DEPOSIT_CONTRACT_BYTES, ⟨0, []⟩, ETH_PLUGIN_RESULT_UNAVAILABLE⟩ (by decide)⟩

/-! ## The cases of Provide-parameter -/

theorem take_32_eq (p : List Nat) (hlen : 32 ≤ p.length) :
    p.take 32 = p.take 28 ++ [p.getD 28 0, p.getD 29 0, p.getD 30 0, p.getD 31 0] := by
  have e : (32 : Nat) = 28 + 1 + 1 + 1 + 1 := rfl
  rw [e, List.take_succ, List.take_succ, List.take_succ, List.take_succ]
  have h28 : p[28]? = some (p.getD 28 0) := by
    rw [List.getD_eq_getElem?_getD, List.getElem?_eq_getElem (by omega)]; rfl
  have h29 : p[29]? = some (p.getD 29 0) := by
    rw [List.getD_eq_getElem?_getD, List.getElem?_eq_getElem (by omega)]; rfl
  have h30 : p[30]? = some (p.getD 30 0) := by
    rw [List.getD_eq_getElem?_getD, List.getElem?_eq_getElem (by omega)]; rfl
  have h31 : p[31]? = some (p.getD 31 0) := by
    rw [List.getD_eq_getElem?_getD, List.getElem?_eq_getElem (by omega)]; rfl
  simp only [Nat.reduceAdd, h28, h29, h30, h31, Option.toList, List.append_assoc,
    List.cons_append, List.nil_append]

theorem U4BE_eq_beValue_mod (p : List Nat) (hlen : 32 ≤ p.length) :
    U4BE p 28 = beValue (p.take 32) % 2 ^ 32 := by
  rw [take_32_eq p hlen]
  simp only [U4BE, beValue, List.foldl_append, List.foldl_cons, List.foldl_nil, Nat.reduceAdd]
  omega

theorem recognizedOffsets_eq :
    recognizedOffsets = [4, 36, 68, 100, 132, 164, 196, 228, 260, 292, 324, 356, 388] := by
  decide

theorem head_check_of_mem (p : Nat × Nat) (hp : p ∈ headTable) : head_check p.1 = p.2 := by
  simp only [headTable, List.mem_cons, List.mem_singleton, List.not_mem_nil, or_false] at hp
  rcases hp with rfl | rfl | rfl | rfl | rfl | rfl <;> decide

theorem provide_parameter_head (E : Externals) (G : Globals) (msg : ethPluginProvideParameter_t)
    (p : Nat × Nat) (hp : p ∈ headTable) (hoff : msg.parameterOffset = p.1) :
    provide_parameter E G msg =
      { msg with
        pluginContext :=
          if U4BE msg.parameter 28 ≠ p.2 then { msg.pluginContext with valid := 0 }
          else msg.pluginContext,
        result := ETH_PLUGIN_RESULT_OK } := by
  have hc := head_check_of_mem p hp
  simp only [headTable, List.mem_cons, List.mem_singleton, List.not_mem_nil, or_false] at hp
  unfold provide_parameter
  rw [hoff]
  simp only [hc]
  rcases hp with rfl | rfl | rfl | rfl | rfl | rfl <;> simp

theorem withdrawal_tmp_take (E : Externals) (hE : WellSized E) (index : Nat) :
    (withdrawal_tmp E index).take 32 = derived_credentials E index := by
  obtain ⟨hpk, hsha⟩ := hE
  have h1 := hpk [12381, 3600, index, 0]
  have h2 := hsha (E.getEth2PublicKey [12381, 3600, index, 0])
  unfold withdrawal_tmp derived_credentials
  simp only [WITHDRAWAL_KEY_PATH_1, WITHDRAWAL_KEY_PATH_2, WITHDRAWAL_KEY_PATH_4, writeAt]
  generalize E.getEth2PublicKey [12381, 3600, index, 0] = pk at h1 h2
  have e1 : List.take 0 (List.replicate 48 0) ++ List.take 48 pk
      ++ List.drop (0 + (List.take 48 pk).length) (List.replicate 48 0) = pk := by
    simp [h1, List.take_of_length_le]
  rw [e1]
  have e2 : List.take 48 pk = pk := List.take_of_length_le (by omega)
  rw [e2]
  generalize E.cx_hash_sha256 pk = d at h2
  have e3 : List.take 32 d = d := List.take_of_length_le (by omega)
  rw [e3]
  cases d with
  | nil => simp at h2
  | cons x d =>
    have h3 : d.length = 31 := by simpa using h2
    simp [List.take_append_of_le_length, List.take_of_length_le, h3]

theorem derived_credentials_length (E : Externals) (hE : WellSized E) (index : Nat) :
    (derived_credentials E index).length = 32 := by
  simp [derived_credentials, hE.2]

theorem provide_parameter_withdrawal (E : Externals) (G : Globals)
    (msg : ethPluginProvideParameter_t) (hoff : msg.parameterOffset = 260) :
    provide_parameter E G msg =
      { msg with
        pluginContext :=
          { msg.pluginContext with
            valid :=
              if G.eth2WithdrawalIndex > INDEX_MAX then 0
              else if (withdrawal_tmp E G.eth2WithdrawalIndex).take 32 = msg.parameter.take 32
              then msg.pluginContext.valid else 0 },
        result :=
          if (withdrawal_tmp E G.eth2WithdrawalIndex).take 32 = msg.parameter.take 32
          then ETH_PLUGIN_RESULT_OK else ETH_PLUGIN_RESULT_ERROR } := by
  unfold provide_parameter
  simp only [hoff, memcmp]
  by_cases h1 : G.eth2WithdrawalIndex > INDEX_MAX <;>
    by_cases h2 : (withdrawal_tmp E G.eth2WithdrawalIndex).take 32 = msg.parameter.take 32 <;>
    simp [h1, h2, hoff]

theorem provide_parameter_passthrough (E : Externals) (G : Globals)
    (msg : ethPluginProvideParameter_t) (hoff : msg.parameterOffset ∈ [100, 324, 356, 388]) :
    provide_parameter E G msg = { msg with result := ETH_PLUGIN_RESULT_OK } := by
  simp only [List.mem_cons, List.mem_singleton, List.not_mem_nil, or_false] at hoff
  unfold provide_parameter
  rcases hoff with h | h | h | h <;> simp [h]

theorem provide_parameter_pubkey1 (E : Externals) (G : Globals)
    (msg : ethPluginProvideParameter_t) (hoff : msg.parameterOffset = 164) :
    provide_parameter E G msg =
      { msg with
        pluginContext :=
          { msg.pluginContext with
            deposit_address := memcpy msg.pluginContext.deposit_address 0 msg.parameter 48 },
        result := ETH_PLUGIN_RESULT_OK } := by
  unfold provide_parameter
  simp [hoff]

theorem provide_parameter_pubkey2 (E : Externals) (G : Globals)
    (msg : ethPluginProvideParameter_t) (hoff : msg.parameterOffset = 196) :
    provide_parameter E G msg =
      { msg with
        pluginContext :=
          { msg.pluginContext with
            deposit_address :=
              strcpy (memcpy msg.pluginContext.deposit_address 32 msg.parameter 16)
                (getEthDisplayableAddress E (List.replicate 48 0)
                  (memcpy msg.pluginContext.deposit_address 32 msg.parameter 16)).2 },
        result := ETH_PLUGIN_RESULT_OK } := by
  unfold provide_parameter
  simp [hoff]

theorem provide_parameter_unrecognized (E : Externals) (G : Globals)
    (msg : ethPluginProvideParameter_t) (hoff : msg.parameterOffset ∉ recognizedOffsets) :
    provide_parameter E G msg = msg := by
  simp only [recognizedOffsets_eq, List.mem_cons, List.mem_singleton, List.not_mem_nil,
    or_false, not_or] at hoff
  unfold provide_parameter
  simp [hoff]

theorem provide_parameter_valid_zero (E : Externals) (G : Globals)
    (msg : ethPluginProvideParameter_t) (h : msg.pluginContext.valid = 0) :
    (provide_parameter E G msg).pluginContext.valid = 0 := by
  unfold provide_parameter
  simp only
  split_ifs <;> simp [h]

/-! ## Head fields, monotonicity and result codes -/

/-- C2 (counterexample). At offset 4 the chunk `spoofedHeadChunk`, whose 256-bit value
differs from `0x80`, leaves a valid context valid. -/
theorem C2_counterexample :
    IsBytes 32 spoofedHeadChunk ∧ beValue spoofedHeadChunk ≠ 0x80 ∧
      (provide_parameter sampleExternals (sampleGlobals 0)
        ⟨spoofedHeadChunk, 4, sampleContext, ETH_PLUGIN_RESULT_UNAVAILABLE⟩).pluginContext.valid
        = 1 := by
  decide

/-- C2 (amended). For each of the six head offsets and every 32-byte chunk whose last
four bytes, that is its 256-bit big-endian value modulo `2 ^ 32`, differ from the
constant expected at that offset, processing the chunk leaves valid = 0. -/
theorem C2_head_low_word_must_match (E : Externals) (G : Globals)
    (msg : ethPluginProvideParameter_t) (hlen : 32 ≤ msg.parameter.length)
    (p : Nat × Nat) (hp : p ∈ headTable) (hoff : msg.parameterOffset = p.1)
    (hne : beValue (msg.parameter.take 32) % 2 ^ 32 ≠ p.2) :
    (provide_parameter E G msg).pluginContext.valid = 0 := by
  rw [provide_parameter_head E G msg p hp hoff, U4BE_eq_beValue_mod _ hlen]
  simp only [ne_eq, hne, not_false_eq_true, if_true]

/-- Witness of C2 on a sample input. -/
theorem C2_head_low_word_must_match_witness :
    (provide_parameter sampleExternals (sampleGlobals 0)
      ⟨abiWord 0x81, 4, sampleContext, ETH_PLUGIN_RESULT_UNAVAILABLE⟩).pluginContext.valid
      = 0 :=
  C2_head_low_word_must_match sampleExternals (sampleGlobals 0)
    ⟨abiWord 0x81, 4, sampleContext, ETH_PLUGIN_RESULT_UNAVAILABLE⟩ (by decide) (4, 0x80)
    (by decide) rfl (by decide)

/-- C3. valid is monotone under chunk processing: from a context with valid = 0, every
finite sequence of Provide-parameter calls, for every withdrawal index, ends with
valid = 0. -/
theorem C3_valid_monotone (E : Externals) (G : Globals) (result : eth_plugin_result_t)
    (context : eth2_deposit_parameters_t) (chunks : List (Nat × List Nat))
    (h : context.valid = 0) : (provide_parameters E G result context chunks).valid = 0 := by
  induction chunks generalizing context with
  | nil => simpa [provide_parameters] using h
  | cons c chunks ih =>
    obtain ⟨off, parameter⟩ := c
    simp only [provide_parameters]
    exact ih _ (provide_parameter_valid_zero E G _ h)

/-- Witness of C3 on a sample input. -/
theorem C3_valid_monotone_witness :
    (provide_parameters sampleExternals (sampleGlobals 0) ETH_PLUGIN_RESULT_UNAVAILABLE
      ⟨0, List.replicate 48 0⟩
      (happyPathChunks sampleExternals 0 [] [] [] [] [] [] (fun _ => []))).valid = 0 :=
  C3_valid_monotone sampleExternals (sampleGlobals 0) ETH_PLUGIN_RESULT_UNAVAILABLE
    ⟨0, List.replicate 48 0⟩ _ rfl

/-- C4 (counterexample). At the recognized offset 260 a chunk that is not the derived
credentials makes Provide-parameter report ERROR. -/
theorem C4_counterexample :
    260 ∈ recognizedOffsets ∧
      (provide_parameter sampleExternals (sampleGlobals 0)
        ⟨List.replicate 32 0, 260, sampleContext, ETH_PLUGIN_RESULT_OK⟩).result
        = ETH_PLUGIN_RESULT_ERROR := by
  decide

/-- C4 (amended). For each of the twelve recognized offsets other than 260, every chunk,
every context and every withdrawal index, the result set by Provide-parameter is OK,
also when the call cleared valid; at offset 260 the result is OK when the chunk equals
the derived credentials and ERROR when it does not. -/
theorem C4_result_on_recognized_offsets (E : Externals) (G : Globals)
    (msg : ethPluginProvideParameter_t) (hE : WellSized E)
    (hoff : msg.parameterOffset ∈ recognizedOffsets) :
    (provide_parameter E G msg).result =
      if msg.parameterOffset = 260
          ∧ msg.parameter.take 32 ≠ derived_credentials E G.eth2WithdrawalIndex
      then ETH_PLUGIN_RESULT_ERROR else ETH_PLUGIN_RESULT_OK := by
  simp only [recognizedOffsets_eq, List.mem_cons, List.mem_singleton, List.not_mem_nil,
    or_false] at hoff
  rcases hoff with h | h | h | h | h | h | h | h | h | h | h | h | h
  · rw [provide_parameter_head E G msg (4, 0x80) (by decide) h]; simp [h]
  · rw [provide_parameter_head E G msg (36, 0xE0) (by decide) h]; simp [h]
  · rw [provide_parameter_head E G msg (68, 0x120) (by decide) h]; simp [h]
  · rw [provide_parameter_passthrough E G msg (by simp [h])]; simp [h]
  · rw [provide_parameter_head E G msg (132, 0x30) (by decide) h]; simp [h]
  · rw [provide_parameter_pubkey1 E G msg h]; simp [h]
  · rw [provide_parameter_pubkey2 E G msg h]; simp [h]
  · rw [provide_parameter_head E G msg (228, 0x20) (by decide) h]; simp [h]
  · rw [provide_parameter_withdrawal E G msg h, withdrawal_tmp_take E hE]
    by_cases hc : derived_credentials E G.eth2WithdrawalIndex = msg.parameter.take 32
    · simp [h, hc]
    · simp [h, hc, Ne.symm hc]
  · rw [provide_parameter_head E G msg (292, 0x60) (by decide) h]; simp [h]
  · rw [provide_parameter_passthrough E G msg (by simp [h])]; simp [h]
  · rw [provide_parameter_passthrough E G msg (by simp [h])]; simp [h]
  · rw [provide_parameter_passthrough E G msg (by simp [h])]; simp [h]

theorem sampleExternals_wellSized : WellSized sampleExternals := by
  constructor <;> intro _ <;> simp [sampleExternals]

/-- Witness of C4 on a sample input. -/
theorem C4_result_on_recognized_offsets_witness :
    (provide_parameter sampleExternals (sampleGlobals 0)
      ⟨spoofedHeadChunk, 36, sampleContext, ETH_PLUGIN_RESULT_ERROR⟩).result =
      if (36 : Nat) = 260 ∧ spoofedHeadChunk.take 32 ≠ derived_credentials sampleExternals 0
      then ETH_PLUGIN_RESULT_ERROR else ETH_PLUGIN_RESULT_OK :=
  C4_result_on_recognized_offsets sampleExternals (sampleGlobals 0)
    ⟨spoofedHeadChunk, 36, sampleContext, ETH_PLUGIN_RESULT_ERROR⟩ sampleExternals_wellSized
    (by decide)

/-! ## Withdrawal credentials, Finalize and the frame of valid -/

theorem provide_withdrawal_valid (E : Externals) (G : Globals)
    (msg : ethPluginProvideParameter_t) (hE : WellSized E) (hoff : msg.parameterOffset = 260) :
    (provide_parameter E G msg).pluginContext.valid =
      if G.eth2WithdrawalIndex > INDEX_MAX then 0
      else if msg.parameter.take 32 = derived_credentials E G.eth2WithdrawalIndex
      then msg.pluginContext.valid else 0 := by
  rw [provide_parameter_withdrawal E G msg hoff, withdrawal_tmp_take E hE]
  simp only [eq_comm]

/-- C5 (counterexample). With withdrawal index 524288 the chunk that equals the
credentials derived for index 524288 leaves a valid context valid. -/
theorem C5_counterexample :
    (provide_parameter sampleExternals (sampleGlobals 524288)
      ⟨derived_credentials sampleExternals 524288, 260, sampleContext,
        ETH_PLUGIN_RESULT_UNAVAILABLE⟩).pluginContext.valid = 1 := by
  decide

/-- C5 (amended). Withdrawal indexes above 2^19 are rejected: with a withdrawal index
greater than 524288, processing the withdrawal-credentials chunk (offset 260) leaves
valid = 0 for every chunk, the correctly derived one included; index 524288 itself is
the highest one accepted, where valid is kept exactly when the chunk equals the
credentials derived for index 524288. -/
theorem C5_index_above_max_rejected (E : Externals) (G : Globals)
    (msg : ethPluginProvideParameter_t) (hE : WellSized E) (hoff : msg.parameterOffset = 260) :
    (G.eth2WithdrawalIndex > 524288 → (provide_parameter E G msg).pluginContext.valid = 0) ∧
    (G.eth2WithdrawalIndex = 524288 →
      (provide_parameter E G msg).pluginContext.valid =
        if msg.parameter.take 32 = derived_credentials E 524288
        then msg.pluginContext.valid else 0) := by
  rw [provide_withdrawal_valid E G msg hE hoff]
  constructor
  · intro h
    simp [INDEX_MAX, h]
  · intro h
    simp [INDEX_MAX, h]

/-- Witness of C5 on a sample input. -/
theorem C5_index_above_max_rejected_witness :
    ((524289 : Nat) > 524288 →
      (provide_parameter sampleExternals (sampleGlobals 524289)
        ⟨derived_credentials sampleExternals 524289, 260, sampleContext,
          ETH_PLUGIN_RESULT_UNAVAILABLE⟩).pluginContext.valid = 0) ∧
    ((524289 : Nat) = 524288 →
      (provide_parameter sampleExternals (sampleGlobals 524289)
        ⟨derived_credentials sampleExternals 524289, 260, sampleContext,
          ETH_PLUGIN_RESULT_UNAVAILABLE⟩).pluginContext.valid =
        if (derived_credentials sampleExternals 524289).take 32
            = derived_credentials sampleExternals 524288
        then sampleContext.valid else 0) :=
  C5_index_above_max_rejected sampleExternals (sampleGlobals 524289)
    ⟨derived_credentials sampleExternals 524289, 260, sampleContext,
      ETH_PLUGIN_RESULT_UNAVAILABLE⟩ sampleExternals_wellSized rfl

/-- C6. Withdrawal-credential check is exact: for every withdrawal index up to 524287,
every 32-byte chunk and every context, after processing offset 260 valid is the value
before when the chunk equals the derived credentials D, and 0 when it does not. -/
theorem C6_withdrawal_credential_check_exact (E : Externals) (G : Globals)
    (context : eth2_deposit_parameters_t) (chunk rest : List Nat)
    (result : eth_plugin_result_t) (hE : WellSized E)
    (hidx : G.eth2WithdrawalIndex ≤ 524287) (hchunk : chunk.length = 32) :
    (provide_parameter E G ⟨chunk ++ rest, 260, context, result⟩).pluginContext.valid =
      if chunk = derived_credentials E G.eth2WithdrawalIndex then context.valid else 0 := by
  rw [provide_withdrawal_valid E G _ hE rfl]
  have h1 : ¬ G.eth2WithdrawalIndex > INDEX_MAX := by simp only [INDEX_MAX]; omega
  have h2 : (chunk ++ rest).take 32 = chunk := by
    rw [List.take_append_of_le_length (by omega), List.take_of_length_le (by omega)]
  simp only [h1, h2, if_false]

/-- Witness of C6 on a sample input. -/
theorem C6_withdrawal_credential_check_exact_witness :
    (provide_parameter sampleExternals (sampleGlobals 524287)
      ⟨derived_credentials sampleExternals 524287 ++ [1, 2, 3], 260, sampleContext,
        ETH_PLUGIN_RESULT_UNAVAILABLE⟩).pluginContext.valid =
      if derived_credentials sampleExternals 524287
          = derived_credentials sampleExternals (sampleGlobals 524287).eth2WithdrawalIndex
      then sampleContext.valid else 0 :=
  C6_withdrawal_credential_check_exact sampleExternals (sampleGlobals 524287) sampleContext
    (derived_credentials sampleExternals 524287) [1, 2, 3] ETH_PLUGIN_RESULT_UNAVAILABLE
    sampleExternals_wellSized (by decide) (by decide)

/-- C7. Finalize projects valid onto the result: when valid is nonzero Finalize sets
result to OK with numScreens = 2 and uiType = GENERIC; when valid is 0 it sets result to
FALLBACK and leaves numScreens and uiType as they were. The context is unchanged. -/
theorem C7_finalize_projects_valid (msg : ethPluginFinalize_t) :
    (msg.pluginContext.valid ≠ 0 →
      finalize msg =
        { msg with numScreens := 2, uiType := ETH_UI_TYPE_GENERIC,
                   result := ETH_PLUGIN_RESULT_OK }) ∧
    (msg.pluginContext.valid = 0 →
      finalize msg = { msg with result := ETH_PLUGIN_RESULT_FALLBACK }) := by
  unfold finalize
  constructor <;> intro h <;> simp [h]

/-- C9 (counterexample). At the unrecognized offset 420 a message whose result field
holds ERROR, or UNAVAILABLE, before the call holds the same value after it, not OK. -/
theorem C9_counterexample :
    420 ∉ recognizedOffsets ∧
      (provide_parameter sampleExternals (sampleGlobals 0)
        ⟨List.replicate 32 0, 420, sampleContext, ETH_PLUGIN_RESULT_ERROR⟩).result
        = ETH_PLUGIN_RESULT_ERROR ∧
      (provide_parameter sampleExternals (sampleGlobals 0)
        ⟨List.replicate 32 0, 420, sampleContext, ETH_PLUGIN_RESULT_UNAVAILABLE⟩).result
        = ETH_PLUGIN_RESULT_UNAVAILABLE := by
  decide

/-- C9 (amended). For every parameter offset outside the thirteen recognized ones, every
chunk and every context, Provide-parameter writes nothing: the result field holds after
the call the value it held before, and the context is unchanged. -/
theorem C9_unrecognized_offset_is_ignored (E : Externals) (G : Globals)
    (msg : ethPluginProvideParameter_t) (hoff : msg.parameterOffset ∉ recognizedOffsets) :
    provide_parameter E G msg = msg :=
  provide_parameter_unrecognized E G msg hoff

/-- Witness of C9 on a sample input. -/
theorem C9_unrecognized_offset_is_ignored_witness :
    provide_parameter sampleExternals (sampleGlobals 0)
        ⟨spoofedHeadChunk, 420, sampleContext, ETH_PLUGIN_RESULT_OK⟩
      = ⟨spoofedHeadChunk, 420, sampleContext, ETH_PLUGIN_RESULT_OK⟩ :=
  C9_unrecognized_offset_is_ignored sampleExternals (sampleGlobals 0)
    ⟨spoofedHeadChunk, 420, sampleContext, ETH_PLUGIN_RESULT_OK⟩ (by decide)

/-- C10. Only head fields and the withdrawal-credentials chunk can clear valid: for
every offset other than the six head offsets and 260, and for every chunk,
Provide-parameter leaves valid equal to its value before the call. -/
theorem C10_valid_frame (E : Externals) (G : Globals) (msg : ethPluginProvideParameter_t)
    (hoff : msg.parameterOffset ∉ [4, 36, 68, 132, 228, 292, 260]) :
    (provide_parameter E G msg).pluginContext.valid = msg.pluginContext.valid := by
  simp only [List.mem_cons, List.mem_singleton, List.not_mem_nil, or_false, not_or] at hoff
  unfold provide_parameter
  simp only
  split_ifs <;> simp_all

/-- Witness of C10 on a sample input. -/
theorem C10_valid_frame_witness :
    (provide_parameter sampleExternals (sampleGlobals 0)
      ⟨spoofedHeadChunk, 196, sampleContext, ETH_PLUGIN_RESULT_UNAVAILABLE⟩).pluginContext.valid
      = sampleContext.valid :=
  C10_valid_frame sampleExternals (sampleGlobals 0)
    ⟨spoofedHeadChunk, 196, sampleContext, ETH_PLUGIN_RESULT_UNAVAILABLE⟩ (by decide)

/-! ## The happy path -/

theorem abiWord_length (c : Nat) : (abiWord c).length = 32 := by simp [abiWord]

theorem U4BE_abiWord (c : Nat) (t : List Nat) (h : beValue (abiWord c) % 2 ^ 32 = c) :
    U4BE (abiWord c ++ t) 28 = c := by
  rw [U4BE_eq_beValue_mod _ (by simp [abiWord_length]),
    List.take_append_of_le_length (by simp [abiWord_length]),
    List.take_of_length_le (by simp [abiWord_length]), h]

theorem head_keeps_valid (E : Externals) (G : Globals) (p : Nat × Nat) (hp : p ∈ headTable)
    (t : List Nat) (context : eth2_deposit_parameters_t) (result : eth_plugin_result_t) :
    (provide_parameter E G ⟨abiWord p.2 ++ t, p.1, context, result⟩).pluginContext.valid
      = context.valid := by
  have hv : beValue (abiWord p.2) % 2 ^ 32 = p.2 := by
    simp only [headTable, List.mem_cons, List.mem_singleton, List.not_mem_nil, or_false] at hp
    rcases hp with rfl | rfl | rfl | rfl | rfl | rfl <;> decide
  rw [provide_parameter_head E G _ p hp rfl]
  simp only [U4BE_abiWord _ _ hv, ne_eq, not_true_eq_false, if_false]

theorem credentials_keep_valid (E : Externals) (G : Globals) (hE : WellSized E)
    (hidx : G.eth2WithdrawalIndex ≤ INDEX_MAX) (t : List Nat)
    (context : eth2_deposit_parameters_t) (result : eth_plugin_result_t) :
    (provide_parameter E G
      ⟨derived_credentials E G.eth2WithdrawalIndex ++ t, 260, context, result⟩).pluginContext.valid
      = context.valid := by
  rw [provide_withdrawal_valid E G _ hE rfl]
  have hl := derived_credentials_length E hE G.eth2WithdrawalIndex
  have h1 : ¬ G.eth2WithdrawalIndex > INDEX_MAX := by omega
  have h2 : (derived_credentials E G.eth2WithdrawalIndex ++ t).take 32
      = derived_credentials E G.eth2WithdrawalIndex := by
    rw [List.take_append_of_le_length (by omega), List.take_of_length_le (by omega)]
  simp only [h1, h2, if_false, if_true]

theorem trace_of_valid_keeping (E : Externals) (G : Globals) (result : eth_plugin_result_t)
    (chunks : List (Nat × List Nat))
    (hkeep : ∀ c ∈ chunks, ∀ context : eth2_deposit_parameters_t,
      (provide_parameter E G ⟨c.2, c.1, context, result⟩).pluginContext.valid = context.valid)
    (context : eth2_deposit_parameters_t) :
    (∀ c ∈ provide_trace E G result context chunks, c.valid = context.valid) ∧
      (provide_parameters E G result context chunks).valid = context.valid := by
  induction chunks generalizing context with
  | nil => simp [provide_trace, provide_parameters]
  | cons c chunks ih =>
    obtain ⟨off, parameter⟩ := c
    have h0 := hkeep (off, parameter) (by simp) context
    have ih2 := ih (fun c hc => hkeep c (by simp [hc]))
      (provide_parameter E G ⟨parameter, off, context, result⟩).pluginContext
    simp only [provide_trace, provide_parameters, List.mem_cons]
    refine ⟨?_, ?_⟩
    · intro c hc
      rcases hc with rfl | hc
      · exact h0
      · rw [ih2.1 c hc]; exact h0
    · rw [ih2.2]; exact h0

theorem provide_trace_length (E : Externals) (G : Globals) (result : eth_plugin_result_t)
    (context : eth2_deposit_parameters_t) (chunks : List (Nat × List Nat)) :
    (provide_trace E G result context chunks).length = chunks.length := by
  induction chunks generalizing context with
  | nil => simp [provide_trace]
  | cons c chunks ih =>
    obtain ⟨off, parameter⟩ := c
    simp [provide_trace, ih]

theorem happyPathChunks_keep_valid (E : Externals) (G : Globals) (hE : WellSized E)
    (hidx : G.eth2WithdrawalIndex ≤ INDEX_MAX) (root pk1 pk2 sig1 sig2 sig3 : List Nat)
    (tail : Nat → List Nat) (result : eth_plugin_result_t) :
    ∀ c ∈ happyPathChunks E G.eth2WithdrawalIndex root pk1 pk2 sig1 sig2 sig3 tail,
      ∀ context : eth2_deposit_parameters_t,
      (provide_parameter E G ⟨c.2, c.1, context, result⟩).pluginContext.valid
        = context.valid := by
  intro c hc context
  simp only [happyPathChunks, List.mem_cons, List.mem_singleton, List.not_mem_nil,
    or_false] at hc
  rcases hc with rfl | rfl | rfl | rfl | rfl | rfl | rfl | rfl | rfl | rfl | rfl | rfl | rfl
  · exact head_keeps_valid E G (4, 0x80) (by decide) _ _ _
  · exact head_keeps_valid E G (36, 0xE0) (by decide) _ _ _
  · exact head_keeps_valid E G (68, 0x120) (by decide) _ _ _
  · rw [provide_parameter_passthrough E G _ (by simp)]
  · exact head_keeps_valid E G (132, 0x30) (by decide) _ _ _
  · rw [provide_parameter_pubkey1 E G _ rfl]
  · rw [provide_parameter_pubkey2 E G _ rfl]
  · exact head_keeps_valid E G (228, 0x20) (by decide) _ _ _
  · exact credentials_keep_valid E G hE hidx _ _ _
  · exact head_keeps_valid E G (292, 0x60) (by decide) _ _ _
  · rw [provide_parameter_passthrough E G _ (by simp)]
  · rw [provide_parameter_passthrough E G _ (by simp)]
  · rw [provide_parameter_passthrough E G _ (by simp)]

/-- C8. Happy path end to end: Init on the deposit contract address sets valid; feeding
then the thirteen chunks at offsets 4, 36, ..., 388 in ascending order, with the six
head chunks the encodings of the expected constants, the withdrawal-credentials chunk
the credentials derived for withdrawal index 0 and the other chunks arbitrary, leaves
valid = 1 after each of the thirteen steps, and Finalize then returns OK with 2
screens. -/
theorem C8_happy_path (E : Externals) (G : Globals) (context : eth2_deposit_parameters_t)
    (r0 r rf : eth_plugin_result_t) (root pk1 pk2 sig1 sig2 sig3 : List Nat)
    (tail : Nat → List Nat) (numScreens : Nat) (uiType : eth_ui_type_t)
    (hE : WellSized E) (hidx : G.eth2WithdrawalIndex = 0) :
    (init_contract E ⟨DEPOSIT_CONTRACT_BYTES, context, r0⟩).result = ETH_PLUGIN_RESULT_OK ∧
    (init_contract E ⟨DEPOSIT_CONTRACT_BYTES, context, r0⟩).pluginContext.valid = 1 ∧
    (provide_trace E G r (init_contract E ⟨DEPOSIT_CONTRACT_BYTES, context, r0⟩).pluginContext
      (happyPathChunks E 0 root pk1 pk2 sig1 sig2 sig3 tail)).length = 13 ∧
    (∀ c ∈ provide_trace E G r
        (init_contract E ⟨DEPOSIT_CONTRACT_BYTES, context, r0⟩).pluginContext
        (happyPathChunks E 0 root pk1 pk2 sig1 sig2 sig3 tail), c.valid = 1) ∧
    (finalize ⟨provide_parameters E G r
        (init_contract E ⟨DEPOSIT_CONTRACT_BYTES, context, r0⟩).pluginContext
        (happyPathChunks E 0 root pk1 pk2 sig1 sig2 sig3 tail), numScreens, uiType, rf⟩).result
      = ETH_PLUGIN_RESULT_OK ∧
    (finalize ⟨provide_parameters E G r
        (init_contract E ⟨DEPOSIT_CONTRACT_BYTES, context, r0⟩).pluginContext
        (happyPathChunks E 0 root pk1 pk2 sig1 sig2 sig3 tail), numScreens, uiType, rf⟩).numScreens
      = 2 := by
  have hinit : init_contract E ⟨DEPOSIT_CONTRACT_BYTES, context, r0⟩
      = ⟨DEPOSIT_CONTRACT_BYTES, { context with valid := 1 }, ETH_PLUGIN_RESULT_OK⟩ := by
    unfold init_contract
    have hb : IsBytes 20 DEPOSIT_CONTRACT_BYTES := by decide
    rw [check_deposit_contract_eq E _ hb]
    simp
  have hkeep := happyPathChunks_keep_valid E G hE (by rw [hidx]; decide) root pk1 pk2 sig1
    sig2 sig3 tail r
  rw [hidx] at hkeep
  have htr := trace_of_valid_keeping E G r _ hkeep { context with valid := 1 }
  rw [hinit]
  refine ⟨rfl, rfl, ?_, htr.1, ?_, ?_⟩
  · rw [provide_trace_length]; rfl
  · unfold finalize
    simp [htr.2]
  · unfold finalize
    simp [htr.2]

/-- Witness of C8 on a sample input. -/
theorem C8_happy_path_witness :
    (finalize ⟨provide_parameters sampleExternals (sampleGlobals 0)
        ETH_PLUGIN_RESULT_UNAVAILABLE
        (init_contract sampleExternals
          ⟨DEPOSIT_CONTRACT_BYTES, ⟨0, List.replicate 48 0⟩,
            ETH_PLUGIN_RESULT_UNAVAILABLE⟩).pluginContext
        (happyPathChunks sampleExternals 0 (List.replicate 32 7) (List.replicate 32 1)
          (List.replicate 32 2) [] [] [] (fun _ => [])), 0, ETH_UI_TYPE_AMOUNT_ADDRESS,
        ETH_PLUGIN_RESULT_UNAVAILABLE⟩).numScreens = 2 :=
  (C8_happy_path sampleExternals (sampleGlobals 0) ⟨0, List.replicate 48 0⟩
    ETH_PLUGIN_RESULT_UNAVAILABLE ETH_PLUGIN_RESULT_UNAVAILABLE ETH_PLUGIN_RESULT_UNAVAILABLE
    (List.replicate 32 7) (List.replicate 32 1) (List.replicate 32 2) [] [] []
    (fun _ => []) 0 ETH_UI_TYPE_AMOUNT_ADDRESS sampleExternals_wellSized rfl).2.2.2.2.2

/-! ## The key buffer -/

theorem writeAt_length (buf data : List Nat) (off : Nat) (h : off + data.length ≤ buf.length) :
    (writeAt buf off data).length = buf.length := by
  simp only [writeAt, List.length_append, List.length_take, List.length_drop]
  omega

theorem pubkey1_buffer (key parameter : List Nat) (hkey : key.length = 48)
    (hpar : 48 ≤ parameter.length) : memcpy key 0 parameter 48 = parameter.take 48 := by
  simp [memcpy, writeAt, hkey, hpar, List.drop_eq_nil_of_le]

/-- C11 (the code at the failing input). On a zeroed key buffer, the chunk of 32 bytes
`1` at offset 164, with 16 bytes `255` behind it in the memory of the host, leaves bytes
32..47 of the key buffer at `255`: the part-1 step copies 48 bytes. -/
theorem C11_part1_copies_48_bytes :
    (provide_parameter sampleExternals (sampleGlobals 0)
      ⟨List.replicate 32 1 ++ List.replicate 16 255, 164, sampleContext,
        ETH_PLUGIN_RESULT_UNAVAILABLE⟩).pluginContext.deposit_address
      = List.replicate 32 1 ++ List.replicate 16 255 ∧
    sampleContext.deposit_address.drop 32 = List.replicate 16 0 := by
  decide

/-- C12. No chunk other than the two public-key chunks touches the key buffer: for every
offset other than 164 and 196, every chunk, every context and every withdrawal index,
the key buffer after Provide-parameter is the key buffer before. -/
theorem C12_key_buffer_frame (E : Externals) (G : Globals) (msg : ethPluginProvideParameter_t)
    (hoff : msg.parameterOffset ≠ 164 ∧ msg.parameterOffset ≠ 196) :
    (provide_parameter E G msg).pluginContext.deposit_address
      = msg.pluginContext.deposit_address := by
  obtain ⟨h1, h2⟩ := hoff
  unfold provide_parameter
  simp only
  split_ifs <;> simp_all

/-- Witness of C12 on a sample input. -/
theorem C12_key_buffer_frame_witness :
    (provide_parameter sampleExternals (sampleGlobals 0)
      ⟨sampleKeyA, 260, ⟨1, sampleKeyB ++ sampleKeyB.take 16⟩,
        ETH_PLUGIN_RESULT_UNAVAILABLE⟩).pluginContext.deposit_address
      = sampleKeyB ++ sampleKeyB.take 16 :=
  C12_key_buffer_frame sampleExternals (sampleGlobals 0)
    ⟨sampleKeyA, 260, ⟨1, sampleKeyB ++ sampleKeyB.take 16⟩, ETH_PLUGIN_RESULT_UNAVAILABLE⟩
    (by decide)

/-! ## Head fields and the too-large withdrawal index -/

theorem drop_28_eq (p : List Nat) (hlen : 32 ≤ p.length) :
    (p.take 32).drop 28 = [p.getD 28 0, p.getD 29 0, p.getD 30 0, p.getD 31 0] := by
  rw [take_32_eq p hlen]
  have h : (p.take 28).length = 28 := by rw [List.length_take]; omega
  rw [List.drop_append_of_le_length (by omega), List.drop_of_length_le (by omega)]
  rfl

theorem getD_lt_256 (chunk : List Nat) (h : IsBytes 32 chunk) (i : Nat) :
    chunk.getD i 0 < 256 := by
  rw [List.getD_eq_getElem?_getD]
  by_cases hi : i < chunk.length
  · rw [List.getElem?_eq_getElem hi]
    exact h.2 _ (List.getElem_mem _)
  · rw [List.getElem?_eq_none (by omega)]
    decide

theorem U4BE_chunk (chunk rest : List Nat) (h : IsBytes 32 chunk) :
    U4BE (chunk ++ rest) 28 = beValue (chunk.drop 28) := by
  have hlen : 32 ≤ chunk.length := by rw [h.1]
  have hd := drop_28_eq chunk hlen
  rw [List.take_of_length_le (by rw [h.1])] at hd
  have e : U4BE (chunk ++ rest) 28 = U4BE chunk 28 := by
    simp only [U4BE, Nat.reduceAdd]
    rw [List.getD_append _ _ _ _ (by rw [h.1]; decide),
      List.getD_append _ _ _ _ (by rw [h.1]; decide),
      List.getD_append _ _ _ _ (by rw [h.1]; decide),
      List.getD_append _ _ _ _ (by rw [h.1]; decide)]
  rw [e, hd]
  have h28 := getD_lt_256 chunk h 28
  have h29 := getD_lt_256 chunk h 29
  have h30 := getD_lt_256 chunk h 30
  have h31 := getD_lt_256 chunk h 31
  simp only [U4BE, beValue, List.foldl_cons, List.foldl_nil, Nat.reduceAdd]
  omega

/-- C16. Head-field step, exact effect: for each of the six head offsets, every 32-byte
chunk and every context, Provide-parameter sets result to OK, leaves the key buffer
unchanged, and leaves valid at its value before when the big-endian integer formed by
chunk bytes 28..31 equals the constant of the offset, and at 0 when it does not; a chunk
with the same bytes 28..31 gives the same message after the call, whatever its bytes
0..27 and the memory behind it are. -/
theorem C16_head_field_step (E : Externals) (G : Globals)
    (context : eth2_deposit_parameters_t) (result : eth_plugin_result_t)
    (chunk rest : List Nat) (p : Nat × Nat) (hp : p ∈ headTable) (hchunk : IsBytes 32 chunk) :
    (provide_parameter E G ⟨chunk ++ rest, p.1, context, result⟩).result
      = ETH_PLUGIN_RESULT_OK ∧
    (provide_parameter E G ⟨chunk ++ rest, p.1, context, result⟩).pluginContext.deposit_address
      = context.deposit_address ∧
    (provide_parameter E G ⟨chunk ++ rest, p.1, context, result⟩).pluginContext.valid
      = (if beValue (chunk.drop 28) = p.2 then context.valid else 0) ∧
    ∀ chunk2 rest2 : List Nat, IsBytes 32 chunk2 → chunk2.drop 28 = chunk.drop 28 →
      (provide_parameter E G ⟨chunk2 ++ rest2, p.1, context, result⟩).pluginContext
          = (provide_parameter E G ⟨chunk ++ rest, p.1, context, result⟩).pluginContext ∧
      (provide_parameter E G ⟨chunk2 ++ rest2, p.1, context, result⟩).result
          = (provide_parameter E G ⟨chunk ++ rest, p.1, context, result⟩).result := by
  rw [provide_parameter_head E G _ p hp rfl, U4BE_chunk chunk rest hchunk]
  refine ⟨rfl, ?_, ?_, ?_⟩
  · by_cases h : beValue (chunk.drop 28) = p.2 <;> simp [h]
  · by_cases h : beValue (chunk.drop 28) = p.2 <;> simp [h]
  · intro chunk2 rest2 h2 hd
    rw [provide_parameter_head E G _ p hp rfl, U4BE_chunk chunk2 rest2 h2, hd]
    exact ⟨rfl, rfl⟩

/-- Witness of C16 on a sample input. -/
theorem C16_head_field_step_witness :
    (provide_parameter sampleExternals (sampleGlobals 0)
      ⟨spoofedHeadChunk ++ [9, 9], 4, sampleContext, ETH_PLUGIN_RESULT_ERROR⟩).pluginContext.valid
      = (if beValue (spoofedHeadChunk.drop 28) = 0x80 then sampleContext.valid else 0) :=
  (C16_head_field_step sampleExternals (sampleGlobals 0) sampleContext ETH_PLUGIN_RESULT_ERROR
    spoofedHeadChunk [9, 9] (4, 0x80) (by decide) (by decide)).2.2.1

/-- C18. Too-large withdrawal index does not decide the result code: for every
withdrawal index greater than 524288 and every 32-byte chunk at offset 260, valid is
cleared, and the result is OK when the chunk equals the credentials derived for that
index and ERROR when it does not. -/
theorem C18_result_above_index_max (E : Externals) (G : Globals)
    (context : eth2_deposit_parameters_t) (result : eth_plugin_result_t)
    (chunk rest : List Nat) (hE : WellSized E) (hidx : G.eth2WithdrawalIndex > 524288)
    (hchunk : chunk.length = 32) :
    (provide_parameter E G ⟨chunk ++ rest, 260, context, result⟩).pluginContext.valid = 0 ∧
    (provide_parameter E G ⟨chunk ++ rest, 260, context, result⟩).result
      = (if chunk = derived_credentials E G.eth2WithdrawalIndex then ETH_PLUGIN_RESULT_OK
         else ETH_PLUGIN_RESULT_ERROR) := by
  have h2 : (chunk ++ rest).take 32 = chunk := by
    rw [List.take_append_of_le_length (by omega), List.take_of_length_le (by omega)]
  have h1 : G.eth2WithdrawalIndex > INDEX_MAX := by simp only [INDEX_MAX]; omega
  rw [provide_parameter_withdrawal E G _ rfl, withdrawal_tmp_take E hE]
  simp only [h1, h2, if_true, eq_comm, true_and]

/-- Witness of C18 on a sample input. -/
theorem C18_result_above_index_max_witness :
    (provide_parameter sampleExternals (sampleGlobals 524289)
      ⟨derived_credentials sampleExternals 524289 ++ [], 260, sampleContext,
        ETH_PLUGIN_RESULT_UNAVAILABLE⟩).pluginContext.valid = 0 ∧
    (provide_parameter sampleExternals (sampleGlobals 524289)
      ⟨derived_credentials sampleExternals 524289 ++ [], 260, sampleContext,
        ETH_PLUGIN_RESULT_UNAVAILABLE⟩).result
      = (if derived_credentials sampleExternals 524289
            = derived_credentials sampleExternals (sampleGlobals 524289).eth2WithdrawalIndex
         then ETH_PLUGIN_RESULT_OK else ETH_PLUGIN_RESULT_ERROR) :=
  C18_result_above_index_max sampleExternals (sampleGlobals 524289) sampleContext
    ETH_PLUGIN_RESULT_UNAVAILABLE (derived_credentials sampleExternals 524289) []
    sampleExternals_wellSized (by decide) (by decide)

/-! ## The deposit public key and its text -/

theorem cString_append_zero (s t : List Nat) (hs : ∀ c ∈ s, c ≠ 0) :
    cString (s ++ 0 :: t) = s :=
  takeWhile_ne_zero_append s t hs

theorem strcpy_eq (dst src : List Nat) :
    strcpy dst src = cString src ++ 0 :: dst.drop ((cString src).length + 1) := by
  simp [strcpy, writeAt, cString]

theorem lowerHex_length (bs : List Nat) : (lowerHex bs).length = 2 * bs.length :=
  hexString_length _ _ _

theorem addressText_ne_zero (bs : List Nat) : ∀ c ∈ 48 :: 120 :: lowerHex bs, c ≠ 0 := by
  intro c hc
  simp only [List.mem_cons] at hc
  rcases hc with rfl | rfl | hc
  · decide
  · decide
  · exact hexString_ne_zero _ _ _ c hc

theorem cString_getEthDisplayableAddress (E : Externals) (out inp : List Nat)
    (hin : 20 ≤ inp.length) (hout : 43 ≤ out.length) :
    cString (getEthDisplayableAddress E out inp).2 = 48 :: 120 :: lowerHex (inp.take 20) := by
  rw [getEthDisplayableAddress_eq E out inp hin hout]
  exact cString_append_zero _ _ (addressText_ne_zero _)

theorem pubkey1_key (key A restA : List Nat) (hA : A.length = 32) (hkey : key.length = 48) :
    (memcpy key 0 (A ++ restA) 48).length = 48 ∧ (memcpy key 0 (A ++ restA) 48).take 32 = A := by
  have hl : ((A ++ restA).take 48).length ≤ 48 := by
    rw [List.length_take]; omega
  have ht : (A ++ restA).take 48 = A ++ restA.take 16 := by
    rw [List.take_append_eq_append_take, List.take_of_length_le (by omega), hA]
  constructor
  · unfold memcpy
    rw [writeAt_length _ _ _ (by omega)]
    exact hkey
  · simp only [memcpy, writeAt, List.take_zero, List.nil_append, ht, List.append_assoc]
    rw [List.take_append_of_le_length (by omega), List.take_of_length_le (by omega)]

theorem pubkey2_key (key1 A B restB : List Nat) (hB : B.length = 32) (hlen : key1.length = 48)
    (htake : key1.take 32 = A) : memcpy key1 32 (B ++ restB) 16 = A ++ B.take 16 := by
  have ht : (B ++ restB).take 16 = B.take 16 := by
    rw [List.take_append_of_le_length (by omega)]
  have hl : (B.take 16).length = 16 := by rw [List.length_take]; omega
  simp only [memcpy, writeAt, ht, htake, hl]
  rw [List.drop_of_length_le (by omega), List.append_nil]

theorem pubkey_steps_key (E : Externals) (G : Globals) (result : eth_plugin_result_t)
    (context : eth2_deposit_parameters_t) (A restA B restB : List Nat)
    (hA : A.length = 32) (hB : B.length = 32) (hkey : context.deposit_address.length = 48) :
    (provide_parameters E G result context (pubkeyChunks A restA B restB)).deposit_address
      = 48 :: 120 :: lowerHex (A.take 20) ++ 0 :: (A ++ B.take 16).drop 43 := by
  obtain ⟨h1, h2⟩ := pubkey1_key context.deposit_address A restA hA hkey
  have h3 := pubkey2_key _ A B restB hB h1 h2
  simp only [pubkeyChunks, provide_parameters]
  rw [provide_parameter_pubkey2 E G _ rfl]
  simp only
  rw [provide_parameter_pubkey1 E G _ rfl]
  simp only
  rw [h3, strcpy_eq,
    cString_getEthDisplayableAddress E _ _ (by simp; omega) (by simp)]
  have ht : (A ++ B.take 16).take 20 = A.take 20 := by
    rw [List.take_append_of_le_length (by omega)]
  rw [ht]
  have hl : (48 :: 120 :: lowerHex (A.take 20)).length + 1 = 43 := by
    simp only [List.length_cons, lowerHex_length, List.length_take]
    omega
  rw [hl]

/-- C13. Deposit-key accumulation: for every pair of 32-byte chunks A and B, processing A
at offset 164 and then B at offset 196 leaves in the key buffer the NUL-terminated text
that `getEthDisplayableAddress` produces on the 48 raw bytes A followed by the first 16
bytes of B; the text is `0x` and the lower-case hexadecimal digits of the first 20 bytes,
whichever letter case the hex encoder emits. -/
theorem C13_deposit_key_accumulation (E E2 : Externals) (G : Globals)
    (result : eth_plugin_result_t) (context : eth2_deposit_parameters_t)
    (A restA B restB out : List Nat) (hA : A.length = 32) (hB : B.length = 32)
    (hkey : context.deposit_address.length = 48) (hout : 43 ≤ out.length) :
    cString (provide_parameters E G result context
        (pubkeyChunks A restA B restB)).deposit_address
      = cString (getEthDisplayableAddress E2 out (A ++ B.take 16)).2 ∧
    cString (getEthDisplayableAddress E2 out (A ++ B.take 16)).2
      = 48 :: 120 :: lowerHex ((A ++ B.take 16).take 20) := by
  have hin : 20 ≤ (A ++ B.take 16).length := by
    rw [List.length_append]; omega
  have ht : (A ++ B.take 16).take 20 = A.take 20 := by
    rw [List.take_append_of_le_length (by omega)]
  rw [cString_getEthDisplayableAddress E2 out _ hin hout,
    pubkey_steps_key E G result context A restA B restB hA hB hkey, ht,
    cString_append_zero _ _ (addressText_ne_zero _)]
  exact ⟨rfl, rfl⟩

/-- Witness of C13 on a sample input. -/
theorem C13_deposit_key_accumulation_witness :
    cString (provide_parameters sampleExternals (sampleGlobals 0) ETH_PLUGIN_RESULT_UNAVAILABLE
        sampleContext (pubkeyChunks sampleKeyA [7, 7] sampleKeyB [])).deposit_address
      = chars "0xa0a1a2a3a4a5a6a7a8a9aaabacadaeafb0b1b2b3" :=
  ((C13_deposit_key_accumulation sampleExternals sampleExternals (sampleGlobals 0)
    ETH_PLUGIN_RESULT_UNAVAILABLE sampleContext sampleKeyA [7, 7] sampleKeyB []
    (List.replicate 48 0) (by decide) (by decide) (by decide) (by decide)).1.trans
    (by decide))

/-- C17. The displayed validator text depends only on the first 20 key bytes: for every
two runs that process part-1 chunks A and A2 at offset 164 and part-2 chunks B and B2 at
offset 196, if A and A2 agree on their first 20 bytes then the NUL-terminated strings
left in the key buffer are equal, both `0x` and the 40 lower-case hexadecimal digits of
those 20 bytes. -/
theorem C17_text_depends_on_first_20_bytes (E E2 : Externals) (G G2 : Globals)
    (result result2 : eth_plugin_result_t) (context context2 : eth2_deposit_parameters_t)
    (A restA B restB A2 restA2 B2 restB2 : List Nat)
    (hA : A.length = 32) (hB : B.length = 32) (hA2 : A2.length = 32) (hB2 : B2.length = 32)
    (hkey : context.deposit_address.length = 48)
    (hkey2 : context2.deposit_address.length = 48) (h20 : A.take 20 = A2.take 20) :
    cString (provide_parameters E G result context
        (pubkeyChunks A restA B restB)).deposit_address
      = cString (provide_parameters E2 G2 result2 context2
        (pubkeyChunks A2 restA2 B2 restB2)).deposit_address ∧
    cString (provide_parameters E G result context
        (pubkeyChunks A restA B restB)).deposit_address
      = 48 :: 120 :: lowerHex (A.take 20) ∧
    (lowerHex (A.take 20)).length = 40 := by
  rw [pubkey_steps_key E G result context A restA B restB hA hB hkey,
    pubkey_steps_key E2 G2 result2 context2 A2 restA2 B2 restB2 hA2 hB2 hkey2, ← h20,
    cString_append_zero _ _ (addressText_ne_zero _),
    cString_append_zero _ _ (addressText_ne_zero _)]
  refine ⟨rfl, rfl, ?_⟩
  rw [lowerHex_length, List.length_take]
  omega

/-- Witness of C17 on a sample input. -/
theorem C17_text_depends_on_first_20_bytes_witness :
    cString (provide_parameters sampleExternals (sampleGlobals 0) ETH_PLUGIN_RESULT_UNAVAILABLE
        sampleContext (pubkeyChunks sampleKeyA [] sampleKeyB [])).deposit_address
      = cString (provide_parameters sampleExternals (sampleGlobals 5) ETH_PLUGIN_RESULT_OK
        sampleContext
        (pubkeyChunks (sampleKeyA.take 20 ++ List.replicate 12 0) [1] spoofedHeadChunk
          [])).deposit_address :=
  (C17_text_depends_on_first_20_bytes sampleExternals sampleExternals (sampleGlobals 0)
    (sampleGlobals 5) ETH_PLUGIN_RESULT_UNAVAILABLE ETH_PLUGIN_RESULT_OK sampleContext
    sampleContext sampleKeyA [] sampleKeyB [] (sampleKeyA.take 20 ++ List.replicate 12 0) [1]
    spoofedHeadChunk [] (by decide) (by decide) (by decide) (by decide) (by decide)
    (by decide) (by decide)).1

/-! ## The validator screen and the shape of the address text -/

theorem lowerAF_hexDigit (u : Bool) (n : Nat) (hn : n < 16) :
    (if 65 ≤ hexDigit u n ∧ hexDigit u n ≤ 70 then hexDigit u n + 32 else hexDigit u n)
      = hexDigit false n := by
  unfold hexDigit
  cases u <;> simp <;> split_ifs <;> omega

theorem map_lowerAF_hexString (up : Nat → Bool) (k : Nat) (bs : List Nat) :
    (hexString up k bs).map (fun c => if 65 ≤ c ∧ c ≤ 70 then c + 32 else c) = lowerHex bs := by
  induction bs generalizing k with
  | nil => simp [hexString, lowerHex]
  | cons b bs ih =>
    rw [lowerHex_cons]
    simp only [hexString, List.map_cons]
    rw [lowerAF_hexDigit _ _ (Nat.mod_lt _ (by norm_num)),
      lowerAF_hexDigit _ _ (Nat.mod_lt _ (by norm_num)), ih (k + 2)]

theorem hexDigit_false_range (n : Nat) (hn : n < 16) :
    (48 ≤ hexDigit false n ∧ hexDigit false n ≤ 57)
      ∨ (97 ≤ hexDigit false n ∧ hexDigit false n ≤ 102) := by
  unfold hexDigit
  simp only [Bool.false_eq_true, if_false]
  split_ifs <;> omega

theorem lowerHex_range (bs : List Nat) :
    ∀ c ∈ lowerHex bs, (48 ≤ c ∧ c ≤ 57) ∨ (97 ≤ c ∧ c ≤ 102) := by
  induction bs with
  | nil => simp [lowerHex, hexString]
  | cons b bs ih =>
    intro c hc
    rw [lowerHex_cons] at hc
    simp only [List.mem_cons] at hc
    rcases hc with rfl | rfl | hc
    · exact hexDigit_false_range _ (Nat.mod_lt _ (by norm_num))
    · exact hexDigit_false_range _ (Nat.mod_lt _ (by norm_num))
    · exact ih c hc

/-- C14. Address Formatter output shape: for every 20-byte input and every mix of upper
and lower case in the 40 hexadecimal digits the encoder writes, `getEthDisplayableAddress`
returns 43 and leaves in `out` the characters `0`, `x`, then the 40 digits of the encoder
with every `A`..`F` replaced by `a`..`f`, all of them in `0`..`9` or `a`..`f`, then the
terminator: a string of 42 characters. -/
theorem C14_address_formatter_shape (E : Externals) (out inp : List Nat)
    (hin : IsBytes 20 inp) (hout : 43 ≤ out.length) :
    (getEthDisplayableAddress E out inp).1 = 43 ∧
    (getEthDisplayableAddress E out inp).2
      = 48 :: 120 :: (hexString (E.hexUpper inp) 0 inp).map
          (fun c => if 65 ≤ c ∧ c ≤ 70 then c + 32 else c) ++ 0 :: out.drop 43 ∧
    (hexString (E.hexUpper inp) 0 inp).length = 40 ∧
    (∀ c ∈ (hexString (E.hexUpper inp) 0 inp).map
          (fun c => if 65 ≤ c ∧ c ≤ 70 then c + 32 else c),
        (48 ≤ c ∧ c ≤ 57) ∨ (97 ≤ c ∧ c ≤ 102)) ∧
    strlen (getEthDisplayableAddress E out inp).2 = 42 := by
  obtain ⟨hlen, _⟩ := hin
  have ht : inp.take 20 = inp := List.take_of_length_le (by omega)
  have hd := getEthDisplayableAddress_eq E out inp (by omega) hout
  rw [ht] at hd
  have hs : strlen (48 :: 120 :: lowerHex inp ++ 0 :: out.drop 43) = 42 := by
    have h := cString_append_zero (48 :: 120 :: lowerHex inp) (out.drop 43)
      (addressText_ne_zero inp)
    unfold cString at h
    unfold strlen
    rw [h]
    simp only [List.length_cons, lowerHex_length, hlen]
  rw [hd, map_lowerAF_hexString]
  refine ⟨rfl, rfl, ?_, lowerHex_range inp, hs⟩
  rw [hexString_length, hlen]

/-- Witness of C14 on the deposit contract address. -/
theorem C14_address_formatter_shape_witness :
    (getEthDisplayableAddress sampleExternals (List.replicate 43 0) DEPOSIT_CONTRACT_BYTES).1
      = 43 :=
  (C14_address_formatter_shape sampleExternals (List.replicate 43 0) DEPOSIT_CONTRACT_BYTES
    (by decide) (by decide)).1

/-! ## The loop of `to_lowercase` -/

theorem lowerChar_ne_zero (c : Nat) (hc : c ≠ 0) : lowerChar c ≠ 0 := by
  unfold lowerChar; split_ifs <;> omega

theorem lowerChar_idem (c : Nat) : lowerChar (lowerChar c) = lowerChar c := by
  unfold lowerChar; split_ifs <;> omega

theorem to_lowercase_cons (c : Nat) (str : List Nat) (size : Nat) (hc : c ≠ 0) :
    to_lowercase (c :: str) (size + 1) = lowerChar c :: to_lowercase str size := by
  simp only [to_lowercase, hc, if_false, lowerChar]

theorem to_lowercase_length (str : List Nat) (size : Nat) :
    (to_lowercase str size).length = str.length := by
  induction str generalizing size with
  | nil => simp [to_lowercase]
  | cons c str ih =>
    cases size with
    | zero => simp [to_lowercase]
    | succ size =>
      by_cases hc : c = 0
      · simp [to_lowercase, hc]
      · rw [to_lowercase_cons c str size hc]
        simp [ih]

theorem to_lowercase_getD (str : List Nat) (size i : Nat) :
    (to_lowercase str size).getD i 0
      = if i < size ∧ i < strlen str then lowerChar (str.getD i 0) else str.getD i 0 := by
  induction str generalizing size i with
  | nil => simp [to_lowercase, strlen]
  | cons c str ih =>
    cases size with
    | zero => simp [to_lowercase]
    | succ size =>
      by_cases hc : c = 0
      · simp [to_lowercase, hc, strlen]
      · rw [to_lowercase_cons c str size hc]
        have hs : strlen (c :: str) = strlen str + 1 := by
          simp [strlen, List.takeWhile_cons, hc]
        cases i with
        | zero => simp [hs]
        | succ i =>
          simp only [List.getD_cons_succ, ih, hs, Nat.add_lt_add_iff_right]

theorem strlen_to_lowercase (str : List Nat) (size : Nat) :
    strlen (to_lowercase str size) = strlen str := by
  induction str generalizing size with
  | nil => simp [to_lowercase]
  | cons c str ih =>
    cases size with
    | zero => simp [to_lowercase]
    | succ size =>
      by_cases hc : c = 0
      · simp [to_lowercase, hc]
      · rw [to_lowercase_cons c str size hc]
        have h2 := lowerChar_ne_zero c hc
        simp only [strlen, List.takeWhile_cons, bne_iff_ne, ne_eq, hc, h2, not_false_eq_true,
          if_true, List.length_cons, decide_True]
        exact congrArg (· + 1) (ih size)

theorem to_lowercase_idem (str : List Nat) (size : Nat) :
    to_lowercase (to_lowercase str size) size = to_lowercase str size := by
  induction str generalizing size with
  | nil => simp [to_lowercase]
  | cons c str ih =>
    cases size with
    | zero => simp [to_lowercase]
    | succ size =>
      by_cases hc : c = 0
      · simp [to_lowercase, hc]
      · rw [to_lowercase_cons c str size hc,
          to_lowercase_cons _ _ size (lowerChar_ne_zero c hc), lowerChar_idem, ih size]

theorem to_lowercase_eq_map (str : List Nat) (size : Nat) :
    to_lowercase str size
      = (str.take (min size (strlen str))).map lowerChar ++ str.drop (min size (strlen str)) := by
  induction str generalizing size with
  | nil => simp [to_lowercase]
  | cons c str ih =>
    cases size with
    | zero => simp [to_lowercase]
    | succ size =>
      by_cases hc : c = 0
      · simp [to_lowercase, hc, strlen]
      · rw [to_lowercase_cons c str size hc]
        have hs : strlen (c :: str) = strlen str + 1 := by
          simp [strlen, List.takeWhile_cons, hc]
        rw [hs, Nat.add_min_add_right, List.take_succ_cons, List.drop_succ_cons, List.map_cons,
          List.cons_append, ← ih size]

theorem to_lowercase_loop_spec (size : Nat) (hsize : size ≤ 255) (rest : List Nat) :
    ∀ (pre : List Nat) (fuel : Nat), pre.length ≤ size → size - pre.length < fuel →
      to_lowercase_loop size fuel pre.length (pre ++ rest)
        = some (pre ++ to_lowercase rest (size - pre.length)) := by
  induction rest with
  | nil =>
    intro pre fuel _ hf
    cases fuel with
    | zero => omega
    | succ fuel =>
      have hg : (pre ++ []).getD pre.length 0 = 0 := by
        rw [List.getD_eq_getElem?_getD, List.getElem?_eq_none (by simp)]; rfl
      simp only [to_lowercase_loop, hg, ne_eq, not_true_eq_false, and_false, if_false,
        to_lowercase]
  | cons c rest ih =>
    intro pre fuel hle hf
    cases fuel with
    | zero => omega
    | succ fuel =>
      have hg : (pre ++ c :: rest).getD pre.length 0 = c := by
        rw [List.getD_eq_getElem?_getD, List.getElem?_append_right (Nat.le_refl _)]
        simp
      by_cases hlt : pre.length < size
      · obtain ⟨k, hk⟩ : ∃ k, size - pre.length = k + 1 := ⟨size - pre.length - 1, by omega⟩
        by_cases hc : c = 0
        · subst hc
          simp only [to_lowercase_loop, hg, ne_eq, not_true_eq_false, and_false, if_false,
            hk, to_lowercase, if_true]
        · have hset : (if 65 ≤ c ∧ c ≤ 90 then (pre ++ c :: rest).set pre.length (c + (97 - 65))
              else pre ++ c :: rest) = (pre ++ [lowerChar c]) ++ rest := by
            unfold lowerChar
            split_ifs <;> simp [List.set_append_right]
          have hmod : (pre.length + 1) % 256 = (pre ++ [lowerChar c]).length := by
            rw [List.length_append, List.length_singleton]
            exact Nat.mod_eq_of_lt (by omega)
          have hstep := ih (pre ++ [lowerChar c]) fuel
            (by rw [List.length_append, List.length_singleton]; omega)
            (by rw [List.length_append, List.length_singleton]; omega)
          have hk2 : size - (pre ++ [lowerChar c]).length = k := by
            rw [List.length_append, List.length_singleton]; omega
          rw [hk2] at hstep
          simp only [to_lowercase_loop, hg]
          rw [if_pos ⟨hlt, hc⟩, hset, hmod, hstep, hk, to_lowercase_cons c rest k hc]
          simp
      · have h0 : size - pre.length = 0 := by omega
        have hnot : ¬ (pre.length < size ∧ c ≠ 0) := fun h => hlt h.1
        simp only [to_lowercase_loop, hg, h0, to_lowercase]
        rw [if_neg hnot]

/-- C19. The pointwise effect of `to_lowercase`: for every buffer and every size in
0..255 the loop exits (256 tests of its condition suffice) with the buffer
`to_lowercase str size`, in which each index below size and before the first NUL of the
input holds the lower-case letter of an upper-case letter and any other character
unchanged, and every other index holds what it held; the buffer and the string keep
their lengths, and applying `to_lowercase` twice gives the same buffer as applying it
once. -/
theorem C19_to_lowercase_pointwise (str : List Nat) (size : Nat) (hsize : size ≤ 255) :
    to_lowercase_loop size 256 0 str = some (to_lowercase str size) ∧
    (∀ i, (to_lowercase str size).getD i 0
      = if i < size ∧ i < strlen str then lowerChar (str.getD i 0) else str.getD i 0) ∧
    (to_lowercase str size).length = str.length ∧
    strlen (to_lowercase str size) = strlen str ∧
    to_lowercase (to_lowercase str size) size = to_lowercase str size := by
  refine ⟨?_, to_lowercase_getD str size, to_lowercase_length str size,
    strlen_to_lowercase str size, to_lowercase_idem str size⟩
  have h := to_lowercase_loop_spec size hsize str [] 256 (Nat.zero_le _)
    (by simp only [List.length_nil]; omega)
  simpa using h

/-- Witness of C19 on a sample buffer. -/
theorem C19_to_lowercase_pointwise_witness :
    to_lowercase_loop 255 256 0 (chars "0xAbC9Z[@" ++ [0, 65, 66])
      = some (chars "0xabc9z[@" ++ [0, 65, 66]) :=
  (C19_to_lowercase_pointwise (chars "0xAbC9Z[@" ++ [0, 65, 66]) 255 (by decide)).1.trans
    (by decide)

end Eth2Plugin
